import Mathlib

/-!
Verification of the PresetUI option-model / command-line reconstruction
engine.  The definitions below are a shallow embedding of the Python code
in `src/rich_preset/core.py` (the prompt-driven front end, which the spec
treats as the reference engine) and `textual_preset.py` (the full-screen
front end).  Python dictionaries are modelled as association lists with
Python's insertion-order semantics; Python `None`-able strings are
modelled as `Option String`.
-/

set_option maxRecDepth 4096

/-! ## Python string primitives -/

/-- Python's `str.strip(c)` for a single character `c`: removes all leading
and trailing occurrences of `c`. -/
def pyStripChar (c : Char) (s : String) : String :=
  String.mk (((s.toList.dropWhile (· = c)).reverse.dropWhile (· = c)).reverse)

/-- The whitespace characters removed by Python's `str.strip()`. -/
def isPySpace (c : Char) : Bool :=
  c = ' ' || c = '\t' || c = '\n' || c = '\r' || c = '\x0b' || c = '\x0c'

/-- Python's `str.strip()`: removes leading and trailing whitespace. -/
def pyStrip (s : String) : String :=
  String.mk (((s.toList.dropWhile isPySpace).reverse.dropWhile isPySpace).reverse)

/-- Python's `a or b` on a possibly-`None` string `a`: yields `b` when `a`
is `None` or empty (falsy), otherwise `a`. -/
def pyOr (a : Option String) (b : String) : String :=
  match a with
  | some s => if s = "" then b else s
  | none => b

/-- One step of Python's `str.title()`: uppercase an alphabetic character
that follows a non-alphabetic one, lowercase the rest. -/
def pyTitleGo : Bool → List Char → List Char
  | _, [] => []
  | prevAlpha, c :: cs =>
    if c.isAlpha then
      (if prevAlpha then c.toLower else c.toUpper) :: pyTitleGo true cs
    else
      c :: pyTitleGo false cs

/-- Python's `str.title()` (restricted to ASCII letters, the only case the
repository exercises). -/
def pyTitle (s : String) : String :=
  String.mk (pyTitleGo false s.toList)

/-- Python's `dest.replace('_', ' ')`: the single-character replacement
used when synthesizing a label from a destination key. -/
def pyUnderscoreToSpace (s : String) : String :=
  String.mk (s.toList.map (fun c => if c = '_' then ' ' else c))

/-! ## Decimal rendering and parsing

Python's `str()` on an integer and `int()` on a decimal string, written as
an explicitly inverse pair so that the round-trip lemma is provable. -/

/-- The ASCII digit character for `n < 10`. -/
def digitChar (n : Nat) : Char := Char.ofNat (48 + n)

/-- Decimal digits of `n`, most significant first, prepended to `acc`. -/
def natToCharsAux (n : Nat) (acc : List Char) : List Char :=
  if h : n < 10 then digitChar n :: acc
  else natToCharsAux (n / 10) (digitChar (n % 10) :: acc)
termination_by n
decreasing_by
  exact Nat.div_lt_self (Nat.pos_of_ne_zero (by omega)) (by omega)

/-- Python `str(n)` for a natural number. -/
def natToStr (n : Nat) : String := String.mk (natToCharsAux n [])

/-- Python `str(n)` for an integer. -/
def intToStr : Int → String
  | Int.ofNat m => natToStr m
  | Int.negSucc m => "-" ++ natToStr (m + 1)

/-- The numeric value of an ASCII digit character, if it is one. -/
def charToDigit (c : Char) : Option Nat :=
  if '0' ≤ c ∧ c ≤ '9' then some (c.toNat - 48) else none

/-- Parse a non-empty list of decimal digit characters. -/
def parseDigits (l : List Char) : Option Nat :=
  if l.isEmpty then none
  else l.foldl (fun acc c =>
    match acc, charToDigit c with
    | some n, some d => some (n * 10 + d)
    | _, _ => none) (some 0)

/-- Python `int(s)` restricted to an optional leading minus sign followed
by decimal digits (the shapes the engine ever produces). -/
def strToInt (s : String) : Option Int :=
  match s.toList with
  | [] => none
  | c :: rest =>
    if c = '-' then (parseDigits rest).map (fun n => -(n : Int))
    else (parseDigits (c :: rest)).map (fun n => (n : Int))

/-! ## Python dictionaries as insertion-ordered association lists -/

/-- The ordered key list of a dictionary. -/
def keysList {α : Type} (d : List (String × α)) : List String := d.map Prod.fst

/-- `d[k]` lookup: the value at the first matching key.  (A dict built by
`dictSet` from empty never has duplicate keys, like a Python dict.) -/
def dictGet {α : Type} : List (String × α) → String → Option α
  | [], _ => none
  | p :: t, k => if p.1 = k then some p.2 else dictGet t k

/-- `d.get(k, v)`: lookup with default. -/
def dictGetD {α : Type} (d : List (String × α)) (k : String) (v : α) : α :=
  (dictGet d k).getD v

/-- `k in d`. -/
def dictContains {α : Type} (d : List (String × α)) (k : String) : Bool :=
  (dictGet d k).isSome

/-- `d[k] = v`: update the entry in place if the key exists, otherwise
append it, exactly as a Python dict preserves insertion order. -/
def dictSet {α : Type} : List (String × α) → String → α → List (String × α)
  | [], k, v => [(k, v)]
  | p :: t, k, v => if p.1 = k then (k, v) :: t else p :: dictSet t k v

/-! ## Option model (`core.py` classes) -/

/-- `CheckboxOption` in `core.py`. -/
structure CheckboxOption where
  label : String
  id : String
  arg : String
  default : Bool
deriving DecidableEq

/-- `InputOption` in `core.py`. -/
structure InputOption where
  label : String
  id : String
  arg : String
  default : String
  placeholder : String
deriving DecidableEq

/-- `SelectOption` in `core.py`: the stored fields after `__init__` ran. -/
structure SelectOption where
  label : String
  id : String
  arg : String
  choices : List String
  default : Option String
deriving DecidableEq

/-- `SelectOption.__init__`: stores the choices and coerces the requested
default into the choices list (first choice if absent or invalid, `None`
when the choices list is empty). -/
def SelectOption.make (label id arg : String) (choices : List String)
    (default : Option String) : SelectOption :=
  { label := label, id := id, arg := arg, choices := choices
    default :=
      match default with
      | some d => if d ∈ choices then some d
                  else match choices with
                       | c :: _ => some c
                       | [] => none
      | none => match choices with
                | c :: _ => some c
                | [] => none }

/-- A parameter option of the rich engine: `InputOption` or `SelectOption`. -/
inductive ParamOption where
  | input : InputOption → ParamOption
  | select : SelectOption → ParamOption
deriving DecidableEq

def ParamOption.id : ParamOption → String
  | .input o => o.id
  | .select o => o.id

def ParamOption.arg : ParamOption → String
  | .input o => o.arg
  | .select o => o.arg

/-- The value stored in `_parameter_values` at initialization / reset:
`opt.default`, which is a plain string for inputs and a possibly-`None`
string for selects. -/
def ParamOption.defaultVal : ParamOption → Option String
  | .input o => some o.default
  | .select o => o.default

/-- `PresetConfig` in `core.py`. -/
structure PresetConfig where
  name : String
  description : String
  checkbox_options : List String
  input_values : List (String × String)
deriving DecidableEq

/-- The configuration data of a `RichConfigApp` instance (the immutable
part: option model, program path, extra args, presets). -/
structure RichApp where
  program : String
  checkbox_options : List CheckboxOption
  parameter_options : List ParamOption
  extra_args : List String
  presets : List PresetConfig
deriving DecidableEq

/-- The mutable state of a `RichConfigApp` session: `_checkbox_states`,
`_parameter_values` and `_selected_preset`. -/
structure FormState where
  checkboxStates : List (String × Bool)
  paramValues : List (String × Option String)
  selectedPreset : Option String
deriving DecidableEq

/-- `RichConfigApp.__init__`: seed both dictionaries from the declared
defaults. -/
def initState (app : RichApp) : FormState :=
  { checkboxStates :=
      app.checkbox_options.foldl (fun d o => dictSet d o.id o.default) []
    paramValues :=
      app.parameter_options.foldl (fun d o => dictSet d o.id o.defaultVal) []
    selectedPreset := none }

/-! ## Command rendering (`_generate_command_preview`) -/

/-- The string drawn from `_parameter_values` for rendering/collection:
`str(value) if value is not None else ""`, with a missing key read as the
empty string via `.get(opt.id, "")`. -/
def storedString (st : FormState) (id : String) : String :=
  match dictGet st.paramValues id with
  | some (some s) => s
  | some none => ""
  | none => ""

/-- `RichConfigApp._generate_command_preview`, loop for loop: start from
`["python", program-stripped-of-quotes]`, append the arg of each checked
toggle, append `[arg, value]` for each parameter whose stored string is
non-empty, then the extra args, and join with single spaces. -/
def generateCommandPreview (app : RichApp) (st : FormState) : String :=
  " ".intercalate
    ((app.parameter_options.foldl
        (fun c o => if storedString st o.id ≠ "" then c ++ [o.arg, storedString st o.id] else c)
        (app.checkbox_options.foldl
          (fun c o => if dictGetD st.checkboxStates o.id false then c ++ [o.arg] else c)
          (["python"] ++ [pyStripChar '"' app.program])))
      ++ app.extra_args)

/-- The argument vector as §4.4 of the spec words it: toggles in
declaration order when true, then `[arg, value]` pairs in declaration
order when the value is non-empty, then the extra args verbatim. -/
def renderArgVector (app : RichApp) (st : FormState) : List String :=
  (app.checkbox_options.filter (fun o => dictGetD st.checkboxStates o.id false)).map
      (fun o => o.arg)
    ++ app.parameter_options.flatMap (fun o =>
        if storedString st o.id ≠ "" then [o.arg, storedString st o.id] else [])
    ++ app.extra_args

/-! ## Preset application (`_apply_preset`) -/

/-- The non-fatal warning printed when a preset carries an invalid value
for a `SelectOption`: it names the preset, the option id, the rejected
value and the value actually retained. -/
structure PresetWarning where
  presetName : String
  optionId : String
  rejected : String
  retained : Option String
deriving DecidableEq

/-- One iteration of the preset-value overlay loop of `_apply_preset`:
ignore ids absent from `_parameter_values`; validate the value against
the choices when the id's option is a `SelectOption`, warning (with the
preset name, the id, the rejected value and the value retained) instead
of mutating on an invalid one; set verbatim otherwise. -/
def presetOverlayStep (app : RichApp) (presetName : String)
    (acc : List (String × Option String) × List PresetWarning)
    (entry : String × String) :
    List (String × Option String) × List PresetWarning :=
  let (pv, ws) := acc
  let (optionId, value) := entry
  if dictContains pv optionId then
    match app.parameter_options.find? (fun o => o.id == optionId) with
    | some (.select so) =>
      if value ∈ so.choices then (dictSet pv optionId (some value), ws)
      else (pv, ws ++ [{ presetName := presetName, optionId := optionId
                         rejected := value, retained := dictGetD pv optionId none }])
    | _ => (dictSet pv optionId (some value), ws)
  else (pv, ws)

/-- The body of `RichConfigApp._apply_preset` once the preset was found:
reset every checkbox to `False`, set the preset's checkbox ids to `True`
(unconditionally, creating entries for unknown ids), reset every
parameter to its default, then overlay the preset's values, validating
choices for `SelectOption`s and warning on invalid ones. -/
def applyPresetConfig (app : RichApp) (st : FormState) (preset : PresetConfig) :
    FormState × List PresetWarning :=
  ({ checkboxStates :=
       preset.checkbox_options.foldl (fun d i => dictSet d i true)
         (app.checkbox_options.foldl (fun d o => dictSet d o.id false) st.checkboxStates)
     paramValues :=
       (preset.input_values.foldl (presetOverlayStep app preset.name)
         (app.parameter_options.foldl (fun d o => dictSet d o.id o.defaultVal) st.paramValues,
          [])).1
     selectedPreset := some preset.name },
   (preset.input_values.foldl (presetOverlayStep app preset.name)
     (app.parameter_options.foldl (fun d o => dictSet d o.id o.defaultVal) st.paramValues,
      [])).2)

/-- `self.presets`: the dict comprehension keyed by preset name. -/
def presetsDict (app : RichApp) : List (String × PresetConfig) :=
  app.presets.foldl (fun d p => dictSet d p.name p) []

/-- `RichConfigApp._apply_preset`: no-op when the name is unknown. -/
def applyPresetNamed (app : RichApp) (st : FormState) (name : String) :
    FormState × List PresetWarning :=
  match dictGet (presetsDict app) name with
  | none => (st, [])
  | some p => applyPresetConfig app st p

/-! ## Parameter mutation (`_display_parameter_options`) -/

/-- The diagnostics the parameter-entry loop surfaces instead of mutating
state. -/
inductive ParamMsg where
  | outOfRange (idx : Nat)
  | invalidChoice (value : String) (choices : List String)
deriving DecidableEq

/-- The `序号 参数值` path of `_display_parameter_options`: a 1-based index
and a value.  An out-of-range index is rejected; an `InputOption` stores
the value verbatim; a `SelectOption` stores it only when it is a member of
`choices` and otherwise surfaces an invalid-choice diagnostic, leaving the
prior value unchanged. -/
def setParamValue (popts : List ParamOption) (pv : List (String × Option String))
    (idx : Nat) (v : String) : List (String × Option String) × Option ParamMsg :=
  if idx < 1 ∨ popts.length < idx then (pv, some (ParamMsg.outOfRange idx))
  else
    match popts.get? (idx - 1) with
    | none => (pv, none)
    | some (.input o) => (dictSet pv o.id (some v), none)
    | some (.select o) =>
      if v ∈ o.choices then (dictSet pv o.id (some v), none)
      else (pv, some (ParamMsg.invalidChoice v o.choices))

/-- The index-only path on a `SelectOption`: `Prompt.ask` with
`choices=opt.choices` re-prompts until the response is a member of the
choices, so the committed response is always a member; a non-member
response is never committed. -/
def promptSelectChoice (popts : List ParamOption) (pv : List (String × Option String))
    (idx : Nat) (c : String) : List (String × Option String) :=
  if idx < 1 ∨ popts.length < idx then pv
  else
    match popts.get? (idx - 1) with
    | some (.select o) => if c ∈ o.choices then dictSet pv o.id (some c) else pv
    | _ => pv

/-- The engine mutations reachable from the interactive loop that touch
`_parameter_values`: direct set-by-index, prompt-driven choice selection,
and preset application by name. -/
inductive FormOp where
  | setParam (idx : Nat) (v : String)
  | promptChoice (idx : Nat) (c : String)
  | applyPreset (name : String)
deriving DecidableEq

/-- Run one mutation against the session state. -/
def runOp (app : RichApp) (st : FormState) : FormOp → FormState
  | .setParam idx v =>
    { st with paramValues := (setParamValue app.parameter_options st.paramValues idx v).1 }
  | .promptChoice idx c =>
    { st with paramValues := promptSelectChoice app.parameter_options st.paramValues idx c }
  | .applyPreset name => (applyPresetNamed app st name).1

/-- Run a sequence of mutations. -/
def runOps (app : RichApp) (st : FormState) (ops : List FormOp) : FormState :=
  ops.foldl (runOp app) st

/-! ## Result collection (`_collect_parameters`) -/

/-- The result dictionary `{'options': ..., 'inputs': ..., 'preset': ...}`. -/
structure ResultParams where
  options : List (String × Bool)
  inputs : List (String × String)
  preset : Option String
deriving DecidableEq

/-- `RichConfigApp._collect_parameters`: checkbox states keyed by `arg`,
parameter strings keyed by `arg` (a `None` value collected as `""`), and
the selected preset. -/
def collectParameters (app : RichApp) (st : FormState) : ResultParams :=
  { options := app.checkbox_options.foldl
      (fun d o => dictSet d o.arg (dictGetD st.checkboxStates o.id false)) []
    inputs := app.parameter_options.foldl
      (fun d o => dictSet d o.arg (storedString st o.id)) []
    preset := st.selectedPreset }

/-! ## Preset preview (`_generate_preset_command`) -/

/-- `RichConfigApp._generate_preset_command`: save copies of both state
dictionaries, apply the preset, render the preview, restore the copies.
The `_selected_preset` field set by `_apply_preset` is not restored, which
the returned state reflects. -/
def generatePresetCommand (app : RichApp) (st : FormState) (name : String) :
    String × FormState :=
  match dictGet (presetsDict app) name with
  | none => ("", st)
  | some _ =>
    let tempCheckbox := st.checkboxStates
    let tempParams := st.paramValues
    let st1 := (applyPresetNamed app st name).1
    let cmd := generateCommandPreview app st1
    (cmd, { st1 with checkboxStates := tempCheckbox, paramValues := tempParams })

/-! ## The textual front end (`textual_preset.py`)

Its option model has no select variant: every value-bearing parameter is
an `InputOption`, its current value living in the `Input` widget with the
option's id.  The widget state is modelled as the selected-checkbox id
list of the `SelectionList` plus the id-keyed widget values. -/

/-- The configuration data of a `ConfigTemplate` instance. -/
structure TextualApp where
  program : String
  checkbox_options : List CheckboxOption
  parameter_options : List InputOption
  extra_args : List String
deriving DecidableEq

/-- The widget state a `ConfigTemplate` session reads: the selected ids of
the `SelectionList` and each `Input` widget's value keyed by option id. -/
structure TextualState where
  selected : List String
  inputValues : List (String × String)
deriving DecidableEq

namespace Textual

/-- `ConfigTemplate._update_command_preview`, loop for loop. -/
def updateCommandPreview (app : TextualApp) (st : TextualState) : String :=
  " ".intercalate
    ((app.parameter_options.foldl
        (fun c o => if dictGetD st.inputValues o.id "" ≠ "" then
            c ++ [o.arg, dictGetD st.inputValues o.id ""] else c)
        (app.checkbox_options.foldl
          (fun c o => if o.id ∈ st.selected then c ++ [o.arg] else c)
          (["python"] ++ [pyStripChar '"' app.program])))
      ++ app.extra_args)

/-- The argument vector of the textual preview as §4.4 words it. -/
def renderArgVector (app : TextualApp) (st : TextualState) : List String :=
  (app.checkbox_options.filter (fun o => o.id ∈ st.selected)).map (fun o => o.arg)
    ++ app.parameter_options.flatMap (fun o =>
        if dictGetD st.inputValues o.id "" ≠ "" then
          [o.arg, dictGetD st.inputValues o.id ""] else [])
    ++ app.extra_args

/-- `ConfigTemplate._collect_parameters` (without the preset radio, which
needs no modelling for the claims): checkbox membership keyed by `arg`,
and each widget value *stripped of surrounding whitespace* keyed by
`arg`. -/
def collectParameters (app : TextualApp) (st : TextualState) : ResultParams :=
  { options := app.checkbox_options.foldl
      (fun d o => dictSet d o.arg (decide (o.id ∈ st.selected))) []
    inputs := app.parameter_options.foldl
      (fun d o => dictSet d o.arg (pyStrip (dictGetD st.inputValues o.id ""))) []
    preset := none }

end Textual

/-! ## The declarative parameter specification (argparse actions)

The repository derives its option model from an `argparse.ArgumentParser`.
The parser itself is the Python standard library, not repository code;
its actions and its `parse_args` are modelled from the spec (§4.1, §6). -/

/-- A Python value as far as the engine observes one: absent, boolean,
integer or string. -/
inductive PyVal where
  | none : PyVal
  | bool : Bool → PyVal
  | int : Int → PyVal
  | str : String → PyVal
deriving DecidableEq

/-- Python `str()` on such a value. -/
def pyStr : PyVal → String
  | .none => "None"
  | .bool true => "True"
  | .bool false => "False"
  | .int n => intToStr n
  | .str s => s

/-- Python truthiness of such a value. -/
def pyTruthy : PyVal → Bool
  | .none => false
  | .bool b => b
  | .int n => n ≠ 0
  | .str s => s ≠ ""

/-- The value conversion an action applies to a command-line token
(`type=` in argparse): identity for strings, decimal parsing for ints. -/
inductive ArgTy where
  | str
  | int
deriving DecidableEq

/-- Modelled from the spec: an entry of the declarative parameter
specification (an `argparse` action) — destination key, invocation
tokens, store-true flag, default, help text, optional finite choice set,
and the value conversion. -/
structure ArgAction where
  dest : String
  optionStrings : List String
  storeTrue : Bool
  default : PyVal
  help : Option String
  choices : Option (List PyVal)
  ty : ArgTy
deriving DecidableEq

/-- Modelled from the spec: converting one token by the action's type. -/
def convertValue : ArgTy → String → Option PyVal
  | .str, s => some (PyVal.str s)
  | .int, s => (strToInt s).map PyVal.int

/-- Modelled from the spec: the choice-set membership check of
`parse_args`. -/
def choicesOk (a : ArgAction) (v : PyVal) : Bool :=
  match a.choices with
  | Option.none => true
  | some cs => cs.contains v

/-- Modelled from the spec: the typed configuration holding each
destination's stated default. -/
def defaultsConfig (actions : List ArgAction) : List (String × PyVal) :=
  actions.foldl (fun d a => dictSet d a.dest a.default) []

/-- Modelled from the spec: `argparse.ArgumentParser.parse_args` on
flag-style actions — scan the vector, match each token against the
actions' invocation tokens, set `True` for store-true actions and
otherwise consume, convert and choice-check the following token. -/
def parseArgsLoop (actions : List ArgAction) :
    List String → List (String × PyVal) → Option (List (String × PyVal))
  | [], cfg => some cfg
  | tok :: rest, cfg =>
    match actions.find? (fun a => a.optionStrings.contains tok) with
    | Option.none => Option.none
    | some a =>
      if a.storeTrue then
        parseArgsLoop actions rest (dictSet cfg a.dest (PyVal.bool true))
      else
        match rest with
        | [] => Option.none
        | v :: rest2 =>
          match convertValue a.ty v with
          | Option.none => Option.none
          | some pv =>
            if choicesOk a pv then parseArgsLoop actions rest2 (dictSet cfg a.dest pv)
            else Option.none

/-- Modelled from the spec: `parse_args` starting from the stated
defaults. -/
def parseArgs (actions : List ArgAction) (argv : List String) :
    Option (List (String × PyVal)) :=
  parseArgsLoop actions argv (defaultsConfig actions)

/-! ## Option extraction from the parser (`create_config_app`) -/

/-- An option tuple produced by the rich `create_config_app` parser loop,
tagged by the branch that produced it. -/
inductive ExtractedRich where
  | checkbox (label id arg : String) (default : Bool)
  | selectT (label id arg : String) (choices : List PyVal) (default : Option String)
  | inputT (label id arg default placeholder : String)
deriving DecidableEq

/-- One iteration of the rich `create_config_app` action loop: skip the
help action and positionals; a store-true action becomes a checkbox
tuple, an action with a truthy choice set a select tuple, any other a
text-input tuple.  (Store-true defaults are booleans; their Python
truthiness is what the checkbox state tests.) -/
def extractActionRich (a : ArgAction) : Option ExtractedRich :=
  if a.dest = "help" ∨ a.optionStrings = [] then Option.none
  else
    let optName := a.optionStrings.headD ""
    let helpText := pyOr a.help ""
    if a.storeTrue then
      some (.checkbox helpText a.dest optName (pyTruthy a.default))
    else
      match a.choices with
      | some cs =>
        if cs.isEmpty then
          let dflt := if a.default = PyVal.none then "" else pyStr a.default
          let placeholder := if dflt ≠ "" then "默认: " ++ dflt else ""
          some (.inputT helpText a.dest optName dflt placeholder)
        else
          some (.selectT helpText a.dest optName cs
            (if a.default = PyVal.none then Option.none else some (pyStr a.default)))
      | Option.none =>
        let dflt := if a.default = PyVal.none then "" else pyStr a.default
        let placeholder := if dflt ≠ "" then "默认: " ++ dflt else ""
        some (.inputT helpText a.dest optName dflt placeholder)

/-- The tuple-to-object step of the rich `create_config_app` (the
`isinstance(item[3], (list, tuple))` heuristic resolves exactly as the
tags say for parser-generated tuples). -/
def extractedToCheckbox : ExtractedRich → Option CheckboxOption
  | .checkbox l i a d => some { label := l, id := i, arg := a, default := d }
  | _ => Option.none

def extractedToParam : ExtractedRich → Option ParamOption
  | .selectT l i a cs d => some (.select (SelectOption.make l i a (cs.map pyStr) d))
  | .inputT l i a d p => some (.input { label := l, id := i, arg := a, default := d, placeholder := p })
  | _ => Option.none

/-- The full rich extraction: checkbox options and parameter options in
declaration order. -/
def extractOptionsRich (actions : List ArgAction) :
    List CheckboxOption × List ParamOption :=
  (actions.filterMap (fun a => (extractActionRich a).bind extractedToCheckbox),
   actions.filterMap (fun a => (extractActionRich a).bind extractedToParam))

/-- One iteration of the textual `create_config_app` action loop: same
skip rule; the label falls back to a title-cased rendering of the
destination key (underscores as spaces); every value-bearing action —
choices or not — becomes an `InputOption`, with the choices mentioned
only in the placeholder. -/
def extractActionTextual (a : ArgAction) :
    Option (CheckboxOption ⊕ InputOption) :=
  if a.dest = "help" ∨ a.optionStrings = [] then Option.none
  else
    let optName := a.optionStrings.headD ""
    let label := pyOr a.help (pyTitle (pyUnderscoreToSpace a.dest))
    if a.storeTrue then
      some (Sum.inl { label := label, id := a.dest, arg := optName
                      default := pyTruthy a.default })
    else
      let dflt := if a.default = PyVal.none then "" else pyStr a.default
      let placeholder := if dflt ≠ "" then "默认: " ++ dflt else ""
      let placeholder :=
        match a.choices with
        | some cs =>
          if cs.isEmpty then placeholder
          else placeholder ++ " (可选: " ++ ", ".intercalate (cs.map pyStr) ++ ")"
        | Option.none => placeholder
      some (Sum.inr { label := label, id := a.dest, arg := optName
                      default := dflt, placeholder := placeholder })

/-! ## Replay and round trip (`create_config_app`, result-to-args) -/

/-- The replay step of the rich `create_config_app`: toggle args appended
when enabled, `[arg, value]` appended when the value is non-empty, then
the extra args. -/
def replayArgs (result : ResultParams) (extra : List String) : List String :=
  (result.inputs.foldl
      (fun acc (p : String × String) => if p.2 ≠ "" then acc ++ [p.1, p.2] else acc)
      (result.options.foldl
        (fun acc (p : String × Bool) => if p.2 then acc ++ [p.1] else acc) []))
    ++ extra

/-- The session the round trip runs through: the rich app built from the
extracted option model, with no extra args and no presets. -/
def rtApp (actions : List ArgAction) : RichApp :=
  { program := "prog"
    checkbox_options := (extractOptionsRich actions).1
    parameter_options := (extractOptionsRich actions).2
    extra_args := [], presets := [] }

/-- The round trip of §6/§8: extract the option model from the
specification, initialize the form state with the extracted defaults,
collect a result untouched, replay it as an argument vector and reparse
it through the original specification. -/
def roundTrip (actions : List ArgAction) : Option (List (String × PyVal)) :=
  parseArgs actions
    (replayArgs (collectParameters (rtApp actions) (initState (rtApp actions))) [])

/-- Does a Python value fit an action type (absent values allowed)? -/
def fitsTy : ArgTy → PyVal → Bool
  | _, .none => true
  | .str, .str _ => true
  | .int, .int _ => true
  | _, _ => false

/-- Does a Python value fit an action type strictly (absent not allowed)? -/
def fitsTyStrict : ArgTy → PyVal → Bool
  | .str, .str _ => true
  | .int, .int _ => true
  | _, _ => false

/-- Is a Python value a boolean? -/
def PyVal.isBool : PyVal → Bool
  | .bool _ => true
  | _ => false

/-- Are an action's choices acceptable for the round trip: absent, or
non-empty and strictly type-compatible? -/
def choicesWellTyped (a : ArgAction) : Bool :=
  match a.choices with
  | some cs => !cs.isEmpty && cs.all (fun c => fitsTyStrict a.ty c)
  | Option.none => true

/-- Well-formedness of one entry, as the round-trip claim needs it: not
the help entry, flag-style, boolean store-true default, type-compatible
default, non-empty type-compatible choices. -/
def WellFormedAction (a : ArgAction) : Prop :=
  a.dest ≠ "help" ∧
  a.optionStrings ≠ [] ∧
  (a.storeTrue = true → a.default.isBool = true) ∧
  (a.storeTrue = false → fitsTy a.ty a.default = true) ∧
  choicesWellTyped a = true

instance : DecidablePred WellFormedAction := fun a => by
  unfold WellFormedAction; infer_instance

/-- Well-formedness of a declarative parameter specification: unique
destinations, globally disjoint invocation tokens, each entry
well-formed.  (The declared-default-in-choices condition appears
separately: the round-trip claim fails without it.) -/
def WellFormedSpec (actions : List ArgAction) : Prop :=
  (actions.map ArgAction.dest).Nodup ∧
  ((actions.map ArgAction.optionStrings).flatten).Nodup ∧
  ∀ a ∈ actions, WellFormedAction a

instance : DecidablePred WellFormedSpec := fun actions => by
  unfold WellFormedSpec; infer_instance

/-- The extra condition the amended round-trip claim needs: every
choices-bearing entry declares a default that is a member of its
choices. -/
def ChoicesHaveDefaults (actions : List ArgAction) : Prop :=
  ∀ a ∈ actions, a.storeTrue = false →
    (match a.choices with
     | some cs => cs.contains a.default
     | Option.none => true) = true

instance : DecidablePred ChoicesHaveDefaults := fun actions => by
  unfold ChoicesHaveDefaults; infer_instance


/-! ## Dictionary lemmas -/

theorem dictGet_dictSet {α : Type} (d : List (String × α)) (k k' : String) (v : α) :
    dictGet (dictSet d k v) k' = if k' = k then some v else dictGet d k' := by
  by_cases h : k' = k
  · subst h
    simp only [if_pos rfl]
    induction d with
    | nil => simp [dictSet, dictGet]
    | cons p t ih =>
      by_cases hp : p.1 = k'
      · simp [dictSet, dictGet, hp]
      · simp [dictSet, dictGet, hp, ih]
  · simp only [if_neg h]
    induction d with
    | nil => simp [dictSet, dictGet, Ne.symm h]
    | cons p t ih =>
      by_cases hp : p.1 = k
      · simp [dictSet, dictGet, hp, Ne.symm h]
      · simp [dictSet, dictGet, hp, ih]

theorem dictGet_dictSet_self {α : Type} (d : List (String × α)) (k : String) (v : α) :
    dictGet (dictSet d k v) k = some v := by
  simp [dictGet_dictSet]

theorem dictGet_dictSet_ne {α : Type} (d : List (String × α)) {k k' : String} (v : α)
    (h : k' ≠ k) : dictGet (dictSet d k v) k' = dictGet d k' := by
  simp [dictGet_dictSet, h]

theorem dictGet_eq_none_iff {α : Type} {d : List (String × α)} {k : String} :
    dictGet d k = none ↔ k ∉ keysList d := by
  induction d with
  | nil => simp [dictGet, keysList]
  | cons p t ih =>
    by_cases hp : p.1 = k
    · simp [dictGet, keysList, hp]
    · have hne : ¬ k = p.1 := fun he => hp he.symm
      simp only [dictGet, if_neg hp]
      rw [ih]
      simp [keysList, hne]

theorem dictContains_iff {α : Type} {d : List (String × α)} {k : String} :
    dictContains d k = true ↔ k ∈ keysList d := by
  unfold dictContains
  rw [Option.isSome_iff_ne_none, Ne, dictGet_eq_none_iff, not_not]

theorem dictGet_mem_keys {α : Type} {d : List (String × α)} {k : String}
    (h : k ∈ keysList d) : ∃ v, dictGet d k = some v := by
  rcases ho : dictGet d k with _ | v
  · exact absurd (dictGet_eq_none_iff.mp ho) (not_not.mpr h)
  · exact ⟨v, rfl⟩

theorem keysList_dictSet {α : Type} (d : List (String × α)) (k : String) (v : α) :
    keysList (dictSet d k v) =
      if k ∈ keysList d then keysList d else keysList d ++ [k] := by
  induction d with
  | nil => simp [dictSet, keysList]
  | cons p t ih =>
    by_cases hp : p.1 = k
    · have hm : k ∈ keysList (p :: t) := by simp [keysList, hp.symm]
      simp only [dictSet, hp, if_pos rfl, if_pos hm]
      simp [keysList, hp]
    · have hne : ¬ k = p.1 := fun he => hp he.symm
      simp only [dictSet, if_neg hp, keysList, List.map_cons]
      have ih' : List.map Prod.fst (dictSet t k v) =
          if k ∈ List.map Prod.fst t then List.map Prod.fst t
          else List.map Prod.fst t ++ [k] := ih
      rw [ih']
      by_cases hm : k ∈ List.map Prod.fst t
      · simp [hm, hne]
      · simp [hm, hne]

theorem mem_keysList_dictSet {α : Type} {d : List (String × α)} {k k' : String} {v : α} :
    k' ∈ keysList (dictSet d k v) ↔ k' ∈ keysList d ∨ k' = k := by
  rw [keysList_dictSet]
  by_cases hm : k ∈ keysList d
  · simp only [hm, if_true]
    constructor
    · exact Or.inl
    · rintro (h | h)
      · exact h
      · exact h ▸ hm
  · simp [hm]

theorem nodup_keysList_dictSet {α : Type} {d : List (String × α)} {k : String} {v : α}
    (h : (keysList d).Nodup) : (keysList (dictSet d k v)).Nodup := by
  rw [keysList_dictSet]
  by_cases hm : k ∈ keysList d
  · simpa [hm] using h
  · simp only [hm, if_false]
    simpa [List.nodup_append] using ⟨h, hm⟩

theorem dictSet_eq_self {α : Type} {d : List (String × α)} {k : String} {v : α}
    (h : dictGet d k = some v) : dictSet d k v = d := by
  induction d with
  | nil => simp [dictGet] at h
  | cons p t ih =>
    by_cases hp : p.1 = k
    · simp only [dictGet, hp, if_pos rfl, Option.some_inj] at h
      cases p
      simp_all [dictSet]
    · simp only [dictGet, hp, if_neg hp] at h
      simp [dictSet, hp, ih h]

/-- Two dictionaries with duplicate-free equal key lists and equal lookups
are equal. -/
theorem dict_ext {α : Type} : ∀ {d1 d2 : List (String × α)},
    (keysList d1).Nodup → keysList d1 = keysList d2 →
    (∀ k, dictGet d1 k = dictGet d2 k) → d1 = d2 := by
  intro d1
  induction d1 with
  | nil =>
    intro d2 _ hkeys _
    cases d2 with
    | nil => rfl
    | cons q t2 => simp [keysList] at hkeys
  | cons p t1 ih =>
    intro d2 hnd hkeys hget
    cases d2 with
    | nil => simp [keysList] at hkeys
    | cons q t2 =>
      simp only [keysList, List.map_cons, List.cons.injEq] at hkeys
      have hk : p.1 = q.1 := hkeys.1
      have hk2 : keysList t1 = keysList t2 := hkeys.2
      have hv : p.2 = q.2 := by
        have hh := hget p.1
        simp [dictGet, hk.symm] at hh
        exact hh
      have hnd' : (keysList t1).Nodup := by
        have : (p.1 :: keysList t1).Nodup := by simpa [keysList] using hnd
        exact (List.nodup_cons.mp this).2
      have hp1 : p.1 ∉ keysList t1 := by
        have : (p.1 :: keysList t1).Nodup := by simpa [keysList] using hnd
        exact (List.nodup_cons.mp this).1
      have htail : ∀ k, dictGet t1 k = dictGet t2 k := by
        intro k
        by_cases hkp : k = p.1
        · subst hkp
          rw [dictGet_eq_none_iff.mpr hp1, Eq.comm, dictGet_eq_none_iff, ← hk2]
          exact hp1
        · have hh := hget k
          have h1 : ¬ p.1 = k := fun he => hkp he.symm
          have h2 : ¬ q.1 = k := fun he => hkp (he ▸ hk).symm
          simpa [dictGet, h1, h2] using hh
      have ht : t1 = t2 := ih hnd' hk2 htail
      cases p; cases q
      simp_all

/-! ## Lemmas about folds of dictionary writes -/

section KeyedFold

variable {α β : Type} {f : α → String} {g : α → β}

theorem foldl_set_get_untouched {l : List α} {k : String}
    (h : ∀ x ∈ l, f x ≠ k) (d : List (String × β)) :
    dictGet (l.foldl (fun d x => dictSet d (f x) (g x)) d) k = dictGet d k := by
  induction l generalizing d with
  | nil => rfl
  | cons x t ih =>
    simp only [List.foldl_cons]
    rw [ih (fun y hy => h y (List.mem_cons_of_mem x hy))]
    exact dictGet_dictSet_ne d (g x) (fun he => h x (List.mem_cons_self x t) he.symm)

theorem foldl_set_get_congr {l : List α} {k : String}
    {d1 d2 : List (String × β)} (h : dictGet d1 k = dictGet d2 k) :
    dictGet (l.foldl (fun d x => dictSet d (f x) (g x)) d1) k =
    dictGet (l.foldl (fun d x => dictSet d (f x) (g x)) d2) k := by
  induction l generalizing d1 d2 with
  | nil => exact h
  | cons x t ih =>
    simp only [List.foldl_cons]
    apply ih
    by_cases hk : k = f x
    · subst hk
      rw [dictGet_dictSet_self, dictGet_dictSet_self]
    · rw [dictGet_dictSet_ne d1 (g x) hk, dictGet_dictSet_ne d2 (g x) hk]
      exact h

theorem foldl_set_get_written {l : List α} {k : String}
    (h : ∃ x ∈ l, f x = k) (d1 d2 : List (String × β)) :
    dictGet (l.foldl (fun d x => dictSet d (f x) (g x)) d1) k =
    dictGet (l.foldl (fun d x => dictSet d (f x) (g x)) d2) k := by
  induction l generalizing d1 d2 with
  | nil => simp at h
  | cons x t ih =>
    simp only [List.foldl_cons]
    by_cases ht : ∃ y ∈ t, f y = k
    · exact ih ht _ _
    · rcases h with ⟨y, hy, hk⟩
      rcases List.mem_cons.mp hy with rfl | hyt
      · apply foldl_set_get_congr
        rw [hk, dictGet_dictSet_self, dictGet_dictSet_self]
      · exact absurd ⟨y, hyt, hk⟩ ht

theorem foldl_set_get_const {l : List α} {k : String} {c : β}
    (h : ∃ x ∈ l, f x = k) (d : List (String × β)) :
    dictGet (l.foldl (fun d x => dictSet d (f x) c) d) k = some c := by
  induction l generalizing d with
  | nil => simp at h
  | cons x t ih =>
    simp only [List.foldl_cons]
    by_cases ht : ∃ y ∈ t, f y = k
    · exact ih ht _
    · rcases h with ⟨y, hy, hk⟩
      rcases List.mem_cons.mp hy with rfl | hyt
      · have : ∀ z ∈ t, f z ≠ k := by
          intro z hz he
          exact ht ⟨z, hz, he⟩
        rw [show (fun (d : List (String × β)) x => dictSet d (f x) c) =
              (fun d x => dictSet d (f x) ((fun _ => c) x)) from rfl]
        rw [foldl_set_get_untouched this]
        rw [hk, dictGet_dictSet_self]
      · exact absurd ⟨y, hyt, hk⟩ ht

theorem foldl_set_get_nodup {l : List α} {x : α}
    (hnd : (l.map f).Nodup) (hx : x ∈ l) (d : List (String × β)) :
    dictGet (l.foldl (fun d y => dictSet d (f y) (g y)) d) (f x) = some (g x) := by
  induction l generalizing d with
  | nil => simp at hx
  | cons y t ih =>
    simp only [List.foldl_cons]
    rcases List.mem_cons.mp hx with rfl | hxt
    · have : ∀ z ∈ t, f z ≠ f x := by
        intro z hz he
        have := (List.nodup_cons.mp hnd).1
        exact this (he ▸ List.mem_map_of_mem f hz)
      rw [foldl_set_get_untouched this, dictGet_dictSet_self]
    · exact ih (List.nodup_cons.mp hnd).2 hxt _

theorem mem_keys_foldl_set {l : List α} {k : String}
    (d : List (String × β)) (h : k ∈ keysList d) :
    k ∈ keysList (l.foldl (fun d x => dictSet d (f x) (g x)) d) := by
  induction l generalizing d with
  | nil => exact h
  | cons x t ih =>
    simp only [List.foldl_cons]
    exact ih _ (mem_keysList_dictSet.mpr (Or.inl h))

theorem foldl_set_key_mem {l : List α} {x : α} (hx : x ∈ l) (d : List (String × β)) :
    f x ∈ keysList (l.foldl (fun d y => dictSet d (f y) (g y)) d) := by
  induction l generalizing d with
  | nil => simp at hx
  | cons y t ih =>
    simp only [List.foldl_cons]
    rcases List.mem_cons.mp hx with rfl | hxt
    · exact mem_keys_foldl_set _ (mem_keysList_dictSet.mpr (Or.inr rfl))
    · exact ih hxt _

theorem foldl_set_keys_stable {l : List α}
    {d : List (String × β)} (h : ∀ x ∈ l, f x ∈ keysList d) :
    keysList (l.foldl (fun d x => dictSet d (f x) (g x)) d) = keysList d := by
  induction l generalizing d with
  | nil => rfl
  | cons x t ih =>
    simp only [List.foldl_cons]
    have hx : f x ∈ keysList d := h x (List.mem_cons_self x t)
    have hkeys : keysList (dictSet d (f x) (g x)) = keysList d := by
      rw [keysList_dictSet]; simp [hx]
    rw [ih (fun y hy => hkeys ▸ h y (List.mem_cons_of_mem x hy)), hkeys]

theorem foldl_set_keys_congr {l : List α}
    {d1 d2 : List (String × β)} (h : keysList d1 = keysList d2) :
    keysList (l.foldl (fun d x => dictSet d (f x) (g x)) d1) =
    keysList (l.foldl (fun d x => dictSet d (f x) (g x)) d2) := by
  induction l generalizing d1 d2 with
  | nil => exact h
  | cons x t ih =>
    simp only [List.foldl_cons]
    apply ih
    rw [keysList_dictSet, keysList_dictSet, h]

theorem foldl_set_nodup_keys {l : List α}
    {d : List (String × β)} (h : (keysList d).Nodup) :
    (keysList (l.foldl (fun d x => dictSet d (f x) (g x)) d)).Nodup := by
  induction l generalizing d with
  | nil => exact h
  | cons x t ih =>
    simp only [List.foldl_cons]
    exact ih (nodup_keysList_dictSet h)

theorem dictSet_fresh {k : String} {v : β} :
    ∀ {d : List (String × β)}, k ∉ keysList d → dictSet d k v = d ++ [(k, v)] := by
  intro d
  induction d with
  | nil => intro _; rfl
  | cons p t ih =>
    intro h
    have hp : ¬ p.1 = k := fun he => h (List.mem_cons.mpr (Or.inl he.symm))
    have ht : k ∉ keysList t := fun hm => h (List.mem_cons.mpr (Or.inr hm))
    simp only [dictSet, if_neg hp, List.cons_append, List.cons.injEq, true_and]
    exact ih ht

theorem foldl_set_fresh {l : List α} :
    ∀ {d : List (String × β)}, (∀ x ∈ l, f x ∉ keysList d) → (l.map f).Nodup →
    l.foldl (fun d x => dictSet d (f x) (g x)) d =
      d ++ l.map (fun x => (f x, g x)) := by
  induction l with
  | nil => intro d _ _; simp
  | cons x t ih =>
    intro d hfresh hnd
    simp only [List.foldl_cons, List.map_cons]
    have hx : f x ∉ keysList d := hfresh x (List.mem_cons_self x t)
    have hset : dictSet d (f x) (g x) = d ++ [(f x, g x)] := dictSet_fresh hx
    rw [hset, ih (d := d ++ [(f x, g x)])]
    · simp
    · intro y hy
      simp only [keysList, List.map_append, List.mem_append]
      rintro (hmem | hmem)
      · exact hfresh y (List.mem_cons_of_mem x hy) hmem
      · simp at hmem
        exact (List.nodup_cons.mp hnd).1 (hmem ▸ List.mem_map_of_mem f hy)
    · exact (List.nodup_cons.mp hnd).2

end KeyedFold

/-! ## Lemmas about the appending folds of command rendering -/

theorem foldl_filter_append {α β : Type} (p : α → Bool) (g : α → β) (l : List α) :
    ∀ init : List β,
      l.foldl (fun acc x => if p x then acc ++ [g x] else acc) init
        = init ++ (l.filter p).map g := by
  induction l with
  | nil => intro init; simp
  | cons x t ih =>
    intro init
    by_cases hp : p x = true
    · simp [hp, ih, List.append_assoc]
    · simp only [Bool.not_eq_true] at hp
      simp [hp, ih]

theorem foldl_pairs_append {α β : Type} (p : α → Prop) [DecidablePred p]
    (g h : α → β) (l : List α) :
    ∀ init : List β,
      l.foldl (fun acc x => if p x then acc ++ [g x, h x] else acc) init
        = init ++ l.flatMap (fun x => if p x then [g x, h x] else []) := by
  induction l with
  | nil => intro init; simp
  | cons x t ih =>
    intro init
    by_cases hp : p x
    · simp [hp, ih, List.append_assoc]
    · simp [hp, ih]

theorem foldl_filter_append_prop {α β : Type} (p : α → Prop) [DecidablePred p]
    (g : α → β) (l : List α) :
    ∀ init : List β,
      l.foldl (fun acc x => if p x then acc ++ [g x] else acc) init
        = init ++ (l.filter (fun x => decide (p x))).map g := by
  induction l with
  | nil => intro init; simp
  | cons x t ih =>
    intro init
    by_cases hp : p x
    · simp [hp, ih, List.append_assoc]
    · simp [hp, ih]

/-! ## C1: rendering order and preview string -/

/-- C1: for every option model, form state and extra args, in both front
ends the rendered argument vector is the ToggleOptions' args in
declaration order for exactly the true toggles, then `[arg, value]` pairs
in declaration order for exactly the non-empty values, then the extra
args verbatim; the preview string is that vector joined by single spaces
and prefixed by the invocation token and the stripped program path. -/
theorem render_produces_ordered_vector (app : RichApp) (st : FormState)
    (tapp : TextualApp) (tst : TextualState) :
    generateCommandPreview app st =
      " ".intercalate (["python", pyStripChar '"' app.program] ++ renderArgVector app st) ∧
    Textual.updateCommandPreview tapp tst =
      " ".intercalate
        (["python", pyStripChar '"' tapp.program] ++ Textual.renderArgVector tapp tst) := by
  constructor
  · unfold generateCommandPreview renderArgVector
    rw [foldl_filter_append, foldl_pairs_append]
    simp [List.append_assoc]
  · unfold Textual.updateCommandPreview Textual.renderArgVector
    rw [foldl_filter_append_prop, foldl_pairs_append]
    simp [List.append_assoc]

/-! ## C10: preset preview leaves the two state dictionaries intact -/

/-- C10: generating a preset's preview command restores the toggle map and
the value map to exactly their values before the call (the selected-preset
marker set inside `_apply_preset` is the only surviving effect). -/
theorem preset_preview_frame (app : RichApp) (st : FormState) (name : String) :
    (generatePresetCommand app st name).2.checkboxStates = st.checkboxStates ∧
    (generatePresetCommand app st name).2.paramValues = st.paramValues := by
  rcases h : dictGet (presetsDict app) name with _ | p <;>
    simp [generatePresetCommand, h]

/-! ## C4: preset toggle application -/

/-- C4 amended, first part: after applying a preset, every declared
ToggleOption's state is `true` exactly when its id is in the preset's
selected set; second part: every id in the preset's selected set — also
one naming no option — ends up with a `true` entry in the toggle map. -/
theorem preset_toggle_reset_overlay (app : RichApp) (st : FormState)
    (preset : PresetConfig) :
    (∀ o ∈ app.checkbox_options,
      dictGet (applyPresetConfig app st preset).1.checkboxStates o.id
        = some (decide (o.id ∈ preset.checkbox_options))) ∧
    (∀ i ∈ preset.checkbox_options,
      dictGet (applyPresetConfig app st preset).1.checkboxStates i = some true) := by
  constructor
  · intro o ho
    show dictGet
      (preset.checkbox_options.foldl (fun d i => dictSet d i true)
        (app.checkbox_options.foldl (fun d o => dictSet d o.id false) st.checkboxStates))
      o.id = _
    by_cases hmem : o.id ∈ preset.checkbox_options
    · rw [foldl_set_get_const (f := fun i => i) ⟨o.id, hmem, rfl⟩]
      simp [hmem]
    · have hne : ∀ x ∈ preset.checkbox_options, (fun i : String => i) x ≠ o.id := by
        intro x hx he
        simp only at he
        exact hmem (he ▸ hx)
      rw [foldl_set_get_untouched (f := fun i => i) hne]
      rw [foldl_set_get_const (f := CheckboxOption.id) ⟨o, ho, rfl⟩]
      simp [hmem]
  · intro i hi
    show dictGet
      (preset.checkbox_options.foldl (fun d i => dictSet d i true)
        (app.checkbox_options.foldl (fun d o => dictSet d o.id false) st.checkboxStates))
      i = _
    rw [foldl_set_get_const (f := fun i => i) ⟨i, hi, rfl⟩]

/-- Witness for the amended C4 statement at a concrete form and preset. -/
theorem preset_toggle_reset_overlay_witness :
    dictGet
      (applyPresetConfig
        { program := "p"
          checkbox_options := [{ label := "A", id := "a", arg := "--a", default := true }]
          parameter_options := [], extra_args := [], presets := [] }
        (initState
          { program := "p"
            checkbox_options := [{ label := "A", id := "a", arg := "--a", default := true }]
            parameter_options := [], extra_args := [], presets := [] })
        { name := "P", description := ""
          checkbox_options := ["ghost"], input_values := [] }).1.checkboxStates
      "ghost" = some true :=
  (preset_toggle_reset_overlay _ _ _).2 "ghost" (by decide)

/-- C4 counterexample: an id in the preset's selected-toggle set that
names no ToggleOption is not ignored: applying the preset creates a
`true` entry for it, so the toggle map does not stay unchanged. -/
theorem preset_unknown_toggle_creates_entry :
    dictGet
      (applyPresetConfig
        { program := "p"
          checkbox_options := [{ label := "A", id := "a", arg := "--a", default := false }]
          parameter_options := [], extra_args := [], presets := [] }
        (initState
          { program := "p"
            checkbox_options := [{ label := "A", id := "a", arg := "--a", default := false }]
            parameter_options := [], extra_args := [], presets := [] })
        { name := "P", description := ""
          checkbox_options := ["ghost"], input_values := [] }).1.checkboxStates
      "ghost" = some true ∧
    (applyPresetConfig
        { program := "p"
          checkbox_options := [{ label := "A", id := "a", arg := "--a", default := false }]
          parameter_options := [], extra_args := [], presets := [] }
        (initState
          { program := "p"
            checkbox_options := [{ label := "A", id := "a", arg := "--a", default := false }]
            parameter_options := [], extra_args := [], presets := [] })
        { name := "P", description := ""
          checkbox_options := ["ghost"], input_values := [] }).1.checkboxStates
      ≠ (initState
          { program := "p"
            checkbox_options := [{ label := "A", id := "a", arg := "--a", default := false }]
            parameter_options := [], extra_args := [], presets := [] }).checkboxStates := by
  constructor
  · decide
  · decide

/-! ## C5: setValue validation -/

/-- C5: in the engine's parameter-mutation path, a value set on a
ChoiceOption that is not a member of its choices is rejected with an
invalid-choice diagnostic and the value dictionary is left unchanged; a
member value, and any value on a TextOption, is stored.  (The textual
front end contains no ChoiceOption at all — every value-bearing option it
builds is an `InputOption` — so the ChoiceOption clause is vacuous
there.) -/
theorem setValue_validates_choices (popts : List ParamOption)
    (pv : List (String × Option String)) (idx : Nat) (v : String)
    (h1 : 1 ≤ idx) (h2 : idx ≤ popts.length) :
    (∀ so, popts.get? (idx - 1) = some (ParamOption.select so) →
      (v ∉ so.choices →
        setParamValue popts pv idx v = (pv, some (ParamMsg.invalidChoice v so.choices))) ∧
      (v ∈ so.choices →
        setParamValue popts pv idx v = (dictSet pv so.id (some v), none))) ∧
    (∀ io, popts.get? (idx - 1) = some (ParamOption.input io) →
      setParamValue popts pv idx v = (dictSet pv io.id (some v), none)) := by
  have hcond : ¬ (idx < 1 ∨ popts.length < idx) := by omega
  constructor
  · intro so hso
    constructor
    · intro hv
      unfold setParamValue
      rw [if_neg hcond, hso]
      simp [hv]
    · intro hv
      unfold setParamValue
      rw [if_neg hcond, hso]
      simp [hv]
  · intro io hio
    unfold setParamValue
    rw [if_neg hcond, hio]

/-- Witness for C5 at a concrete option list: index 1 is a ChoiceOption
with choices `["fast", "normal"]`; the value `"turbo"` is rejected with a
diagnostic and the dictionary `[("mode", some "normal")]` is unchanged,
while `"fast"` is stored. -/
theorem setValue_validates_choices_witness :
    setParamValue
        [ParamOption.select
          { label := "M", id := "mode", arg := "--mode"
            choices := ["fast", "normal"], default := some "normal" }]
        [("mode", some "normal")] 1 "turbo"
      = ([("mode", some "normal")],
         some (ParamMsg.invalidChoice "turbo" ["fast", "normal"])) ∧
    setParamValue
        [ParamOption.select
          { label := "M", id := "mode", arg := "--mode"
            choices := ["fast", "normal"], default := some "normal" }]
        [("mode", some "normal")] 1 "fast"
      = ([("mode", some "fast")], none) := by
  constructor
  · exact ((setValue_validates_choices
      [ParamOption.select
        { label := "M", id := "mode", arg := "--mode"
          choices := ["fast", "normal"], default := some "normal" }]
      [("mode", some "normal")] 1 "turbo" (by decide) (by decide)).1
      { label := "M", id := "mode", arg := "--mode"
        choices := ["fast", "normal"], default := some "normal" } rfl).1 (by decide)
  · have := ((setValue_validates_choices
      [ParamOption.select
        { label := "M", id := "mode", arg := "--mode"
          choices := ["fast", "normal"], default := some "normal" }]
      [("mode", some "normal")] 1 "fast" (by decide) (by decide)).1 _ rfl).2 (by decide)
    rw [this]
    decide

/-! ## C7: result collection -/

/-- C7 amended: result collection maps every ToggleOption's arg to its
current boolean and sets appliedPreset to the currently selected preset
name (or null); each Text/ChoiceOption's arg is present with its current
string — exactly as stored (a `None` collected as `""`) in the rich front
end, but stripped of surrounding whitespace in the textual front end —
and an empty string is collected, never suppressed. -/
theorem collect_parameters_shape (app : RichApp) (st : FormState)
    (tapp : TextualApp) (tst : TextualState)
    (hargs : (app.checkbox_options.map CheckboxOption.arg).Nodup)
    (pargs : (app.parameter_options.map ParamOption.arg).Nodup)
    (targs : (tapp.parameter_options.map InputOption.arg).Nodup) :
    (∀ o ∈ app.checkbox_options,
      dictGet (collectParameters app st).options o.arg
        = some (dictGetD st.checkboxStates o.id false)) ∧
    (∀ o ∈ app.parameter_options,
      dictGet (collectParameters app st).inputs o.arg
        = some (storedString st o.id)) ∧
    (collectParameters app st).preset = st.selectedPreset ∧
    (∀ o ∈ tapp.parameter_options,
      dictGet (Textual.collectParameters tapp tst).inputs o.arg
        = some (pyStrip (dictGetD tst.inputValues o.id ""))) := by
  refine ⟨?_, ?_, rfl, ?_⟩
  · intro o ho
    exact foldl_set_get_nodup (f := CheckboxOption.arg) hargs ho []
  · intro o ho
    exact foldl_set_get_nodup (f := ParamOption.arg) pargs ho []
  · intro o ho
    exact foldl_set_get_nodup (f := InputOption.arg) targs ho []

/-- Witness for the amended C7 at a concrete form: an empty stored value
is collected (not suppressed) in the rich engine, and the textual
collection of the value `" x "` is its stripped form. -/
theorem collect_parameters_shape_witness :
    dictGet
      (collectParameters
        { program := "p", checkbox_options := []
          parameter_options :=
            [ParamOption.input
              { label := "T", id := "t", arg := "--t", default := "", placeholder := "" }]
          extra_args := [], presets := [] }
        { checkboxStates := [], paramValues := [("t", some "")], selectedPreset := none }).inputs
      "--t" = some "" ∧
    dictGet
      (Textual.collectParameters
        { program := "p", checkbox_options := []
          parameter_options :=
            [{ label := "T", id := "t", arg := "--t", default := "", placeholder := "" }]
          extra_args := [] }
        { selected := [], inputValues := [("t", " x ")] }).inputs
      "--t" = some (pyStrip " x ") := by
  constructor
  · exact (collect_parameters_shape
      { program := "p", checkbox_options := []
        parameter_options :=
          [ParamOption.input
            { label := "T", id := "t", arg := "--t", default := "", placeholder := "" }]
        extra_args := [], presets := [] }
      { checkboxStates := [], paramValues := [("t", some "")], selectedPreset := none }
      { program := "p", checkbox_options := [], parameter_options := [], extra_args := [] }
      { selected := [], inputValues := [] }
      (by decide) (by decide) (by decide)).2.1
      (ParamOption.input
        { label := "T", id := "t", arg := "--t", default := "", placeholder := "" })
      (by decide)
  · exact (collect_parameters_shape
      { program := "p", checkbox_options := [], parameter_options := []
        extra_args := [], presets := [] }
      { checkboxStates := [], paramValues := [], selectedPreset := none }
      { program := "p", checkbox_options := []
        parameter_options :=
          [{ label := "T", id := "t", arg := "--t", default := "", placeholder := "" }]
        extra_args := [] }
      { selected := [], inputValues := [("t", " x ")] }
      (by decide) (by decide) (by decide)).2.2.2
      { label := "T", id := "t", arg := "--t", default := "", placeholder := "" }
      (by decide)

/-- C7 counterexample: in the textual front end, collection does not
return the current string exactly as stored — the widget value `" x "` is
collected as `"x"`, stripped of its surrounding whitespace. -/
theorem textual_collect_strips_whitespace :
    dictGet
      (Textual.collectParameters
        { program := "p", checkbox_options := []
          parameter_options :=
            [{ label := "T", id := "t", arg := "--t", default := "", placeholder := "" }]
          extra_args := [] }
        { selected := [], inputValues := [("t", " x ")] }).inputs
      "--t" = some "x" ∧
    dictGetD
      ({ selected := [], inputValues := [("t", " x ")] } : TextualState).inputValues
      "t" "" = " x " ∧
    ("x" : String) ≠ " x " := by
  refine ⟨by decide, by decide, by decide⟩

/-! ## C9: extraction field mapping -/

def ExtractedRich.labelOf : ExtractedRich → String
  | .checkbox l _ _ _ => l
  | .selectT l _ _ _ _ => l
  | .inputT l _ _ _ _ => l

def ExtractedRich.idOf : ExtractedRich → String
  | .checkbox _ i _ _ => i
  | .selectT _ i _ _ _ => i
  | .inputT _ i _ _ _ => i

def ExtractedRich.argOf : ExtractedRich → String
  | .checkbox _ _ a _ => a
  | .selectT _ _ a _ _ => a
  | .inputT _ _ a _ _ => a

def extractedLabel : CheckboxOption ⊕ InputOption → String
  | .inl o => o.label
  | .inr o => o.label

def extractedId : CheckboxOption ⊕ InputOption → String
  | .inl o => o.id
  | .inr o => o.id

def extractedArg : CheckboxOption ⊕ InputOption → String
  | .inl o => o.arg
  | .inr o => o.arg

/-- C9 amended: for every non-skipped entry, both extractions set `arg` to
the first invocation token and `id` to the destination key; the label is
the entry's help text when present and non-empty, and when it is absent
the textual front end falls back to a title-cased rendering of the
destination key (underscores read as spaces) while the rich front end
falls back to the empty string. -/
theorem extraction_field_mapping (a : ArgAction)
    (hdest : a.dest ≠ "help") (hopts : a.optionStrings ≠ []) :
    (∃ e, extractActionRich a = some e ∧
      e.argOf = a.optionStrings.headD "" ∧ e.idOf = a.dest ∧
      e.labelOf = pyOr a.help "") ∧
    (∃ x, extractActionTextual a = some x ∧
      extractedArg x = a.optionStrings.headD "" ∧ extractedId x = a.dest ∧
      extractedLabel x = pyOr a.help (pyTitle (pyUnderscoreToSpace a.dest))) := by
  have hcond : ¬ (a.dest = "help" ∨ a.optionStrings = []) := by
    rintro (h | h)
    · exact hdest h
    · exact hopts h
  constructor
  · unfold extractActionRich
    rw [if_neg hcond]
    by_cases hst : a.storeTrue = true
    · rw [if_pos hst]
      exact ⟨_, rfl, rfl, rfl, rfl⟩
    · rw [if_neg hst]
      rcases hch : a.choices with _ | cs
      · exact ⟨_, rfl, rfl, rfl, rfl⟩
      · by_cases hemp : cs.isEmpty = true
        · simp only [hemp, if_true]
          exact ⟨_, rfl, rfl, rfl, rfl⟩
        · simp only [hemp, if_false]
          exact ⟨_, rfl, rfl, rfl, rfl⟩
  · unfold extractActionTextual
    rw [if_neg hcond]
    by_cases hst : a.storeTrue = true
    · rw [if_pos hst]
      exact ⟨_, rfl, rfl, rfl, rfl⟩
    · rw [if_neg hst]
      exact ⟨_, rfl, rfl, rfl, rfl⟩

/-- Witness for the amended C9 at a concrete entry with help text. -/
theorem extraction_field_mapping_witness :
    (∃ e, extractActionRich
        { dest := "number", optionStrings := ["--number", "-n"], storeTrue := false
          default := PyVal.int 100, help := some "how many", choices := Option.none
          ty := ArgTy.int } = some e ∧
      e.argOf = (["--number", "-n"] : List String).headD "" ∧ e.idOf = "number" ∧
      e.labelOf = pyOr (some "how many") "") ∧
    (∃ x, extractActionTextual
        { dest := "number", optionStrings := ["--number", "-n"], storeTrue := false
          default := PyVal.int 100, help := some "how many", choices := Option.none
          ty := ArgTy.int } = some x ∧
      extractedArg x = (["--number", "-n"] : List String).headD "" ∧
      extractedId x = "number" ∧
      extractedLabel x = pyOr (some "how many") (pyTitle (pyUnderscoreToSpace "number"))) :=
  extraction_field_mapping
    { dest := "number", optionStrings := ["--number", "-n"], storeTrue := false
      default := PyVal.int 100, help := some "how many", choices := Option.none
      ty := ArgTy.int } (by decide) (by decide)

/-- C9 counterexample: for an entry with no help text the rich extraction
labels the option with the empty string, not with a title-cased rendering
of the destination key. -/
theorem rich_extraction_label_not_titlecased :
    extractActionRich
        { dest := "my_opt", optionStrings := ["--my-opt"], storeTrue := true
          default := PyVal.bool false, help := Option.none, choices := Option.none
          ty := ArgTy.str }
      = some (ExtractedRich.checkbox "" "my_opt" "--my-opt" false) ∧
    pyTitle (pyUnderscoreToSpace "my_opt") = "My Opt" ∧
    ("" : String) ≠ "My Opt" := by
  refine ⟨by decide, by decide, by decide⟩

/-! ## Lemmas about option lookup and the preset overlay -/

/-- With duplicate-free ids, the `next(...)` search of `_apply_preset`
finds exactly the member option with the sought id. -/
theorem find?_key_nodup {l : List ParamOption}
    (hnd : (l.map ParamOption.id).Nodup) {o : ParamOption} (ho : o ∈ l) :
    l.find? (fun x => x.id == o.id) = some o := by
  induction l with
  | nil => simp at ho
  | cons y t ih =>
    by_cases hy : y.id = o.id
    · have hoy : o = y := by
        rcases List.mem_cons.mp ho with rfl | hot
        · rfl
        · exfalso
          have : y.id ∉ t.map ParamOption.id := (List.nodup_cons.mp hnd).1
          exact this (hy ▸ List.mem_map_of_mem ParamOption.id hot)
      rw [List.find?_cons_of_pos _ (by simp [hy])]
      rw [hoy]
    · rw [List.find?_cons_of_neg _ (by simp [hy])]
      have hot : o ∈ t := by
        rcases List.mem_cons.mp ho with rfl | hot
        · exact absurd rfl hy
        · exact hot
      exact ih (List.nodup_cons.mp hnd).2 hot

/-- The id, arg and choices stored by `SelectOption.__init__`. -/
theorem SelectOption.make_fields (l i a : String) (cs : List String)
    (d : Option String) :
    (SelectOption.make l i a cs d).id = i ∧
    (SelectOption.make l i a cs d).arg = a ∧
    (SelectOption.make l i a cs d).choices = cs := ⟨rfl, rfl, rfl⟩

/-- `SelectOption.__init__` with a non-empty choices list stores a default
that is a member of the choices. -/
theorem SelectOption.make_default_mem (l i a : String) {cs : List String}
    (hcs : cs ≠ []) (d : Option String) :
    ∃ v, (SelectOption.make l i a cs d).default = some v ∧ v ∈ cs := by
  rcases cs with _ | ⟨c, cs'⟩
  · exact absurd rfl hcs
  · rcases d with _ | d
    · exact ⟨c, rfl, List.mem_cons_self c cs'⟩
    · by_cases hd : d ∈ c :: cs'
      · exact ⟨d, by simp [SelectOption.make, hd], hd⟩
      · exact ⟨c, by simp [SelectOption.make, hd], List.mem_cons_self c cs'⟩

/-- The value dictionary produced by one overlay step at the key of a
found `SelectOption`: the value is stored when it is a choice, otherwise
nothing changes. -/
theorem presetOverlayStep_select (app : RichApp) (name : String)
    (pv : List (String × Option String)) (ws : List PresetWarning)
    (so : SelectOption) (w : String)
    (hfind : app.parameter_options.find? (fun o => o.id == so.id)
      = some (ParamOption.select so))
    (hc : dictContains pv so.id = true) :
    (presetOverlayStep app name (pv, ws) (so.id, w)).1
      = if w ∈ so.choices then dictSet pv so.id (some w) else pv := by
  unfold presetOverlayStep
  by_cases hw : w ∈ so.choices <;> simp [hc, hfind, hw]

/-- One overlay step never changes the value dictionary at keys other
than the entry's own. -/
theorem presetOverlayStep_other (app : RichApp) (name : String)
    (pv : List (String × Option String)) (ws : List PresetWarning)
    (i w : String) {k : String} (hk : k ≠ i) :
    dictGet (presetOverlayStep app name (pv, ws) (i, w)).1 k = dictGet pv k := by
  unfold presetOverlayStep
  by_cases hc : dictContains pv i = true
  · simp only [hc, if_true]
    cases hf : app.parameter_options.find? (fun o => o.id == i) with
    | none => simp [dictGet_dictSet_ne pv _ hk]
    | some o =>
      cases o with
      | input io => simp [hf, dictGet_dictSet_ne pv _ hk]
      | select so2 =>
        by_cases hw : w ∈ so2.choices
        · simp [hf, hw, dictGet_dictSet_ne pv _ hk]
        · simp [hf, hw]
  · simp [hc]

/-- The value-closure invariant of a found `SelectOption` survives the
whole overlay loop. -/
theorem overlay_select_invariant (app : RichApp) (name : String)
    (so : SelectOption)
    (hfind : app.parameter_options.find? (fun o => o.id == so.id)
      = some (ParamOption.select so)) :
    ∀ (entries : List (String × String)) (pv : List (String × Option String))
      (ws : List PresetWarning),
      (∃ v, dictGet pv so.id = some (some v) ∧ v ∈ so.choices) →
      ∃ v, dictGet (entries.foldl (presetOverlayStep app name) (pv, ws)).1 so.id
             = some (some v) ∧ v ∈ so.choices := by
  intro entries
  induction entries with
  | nil => intro pv ws h; exact h
  | cons e t ih =>
    intro pv ws h
    rcases e with ⟨i, w⟩
    simp only [List.foldl_cons]
    by_cases hio : i = so.id
    · subst hio
      rcases h with ⟨v, hv, hvc⟩
      have hc : dictContains pv so.id = true := by
        unfold dictContains
        rw [hv]
        rfl
      have h1 := presetOverlayStep_select app name pv ws so w hfind hc
      by_cases hw : w ∈ so.choices
      · rw [if_pos hw] at h1
        exact ih (presetOverlayStep app name (pv, ws) (so.id, w)).1
          (presetOverlayStep app name (pv, ws) (so.id, w)).2
          ⟨w, by rw [h1, dictGet_dictSet_self], hw⟩
      · rw [if_neg hw] at h1
        exact ih (presetOverlayStep app name (pv, ws) (so.id, w)).1
          (presetOverlayStep app name (pv, ws) (so.id, w)).2
          ⟨v, by rw [h1]; exact hv, hvc⟩
    · rcases h with ⟨v, hv, hvc⟩
      have h1 := presetOverlayStep_other app name pv ws i w
        (k := so.id) (fun he => hio he.symm)
      exact ih (presetOverlayStep app name (pv, ws) (i, w)).1
        (presetOverlayStep app name (pv, ws) (i, w)).2
        ⟨v, by rw [h1]; exact hv, hvc⟩

/-! ## C2: choice-value closure invariant -/

/-- One engine mutation preserves the closure invariant of a declared
`SelectOption` whose stored default is a member of its choices. -/
theorem choice_invariant_step (app : RichApp)
    (hnd : (app.parameter_options.map ParamOption.id).Nodup)
    (so : SelectOption) (hso : ParamOption.select so ∈ app.parameter_options)
    (hdef : ∃ v, so.default = some v ∧ v ∈ so.choices)
    (st : FormState) (op : FormOp)
    (h : ∃ v, dictGet st.paramValues so.id = some (some v) ∧ v ∈ so.choices) :
    ∃ v, dictGet (runOp app st op).paramValues so.id = some (some v) ∧
      v ∈ so.choices := by
  cases op with
  | setParam idx w =>
    show ∃ v, dictGet (setParamValue app.parameter_options st.paramValues idx w).1 so.id
      = some (some v) ∧ v ∈ so.choices
    unfold setParamValue
    by_cases hrange : idx < 1 ∨ app.parameter_options.length < idx
    · simp only [if_pos hrange]
      exact h
    · simp only [if_neg hrange]
      cases hg : app.parameter_options.get? (idx - 1) with
      | none => exact h
      | some o =>
        cases o with
        | input io =>
          have hmem2 : ParamOption.input io ∈ app.parameter_options :=
            List.get?_mem hg
          have hne : so.id ≠ io.id := by
            intro he
            have heq := List.inj_on_of_nodup_map hnd hmem2 hso
              (show ParamOption.id (ParamOption.input io)
                  = ParamOption.id (ParamOption.select so) by
                simpa [ParamOption.id] using he.symm)
            exact absurd heq (by simp)
          rcases h with ⟨v, hv, hvc⟩
          exact ⟨v, by
            dsimp only
            rw [dictGet_dictSet_ne _ _ hne]
            exact hv, hvc⟩
        | select so2 =>
          by_cases hw : w ∈ so2.choices
          · by_cases hid : so2.id = so.id
            · have hmem2 : ParamOption.select so2 ∈ app.parameter_options :=
                List.get?_mem hg
              have heq := List.inj_on_of_nodup_map hnd hmem2 hso
                (show ParamOption.id (ParamOption.select so2)
                    = ParamOption.id (ParamOption.select so) by
                  simpa [ParamOption.id] using hid)
              have hso2 : so2 = so := by
                cases heq
                rfl
              subst hso2
              exact ⟨w, by
                dsimp only
                rw [if_pos hw]
                dsimp only
                rw [hid, dictGet_dictSet_self], hw⟩
            · rcases h with ⟨v, hv, hvc⟩
              exact ⟨v, by
                dsimp only
                rw [if_pos hw]
                dsimp only
                rw [dictGet_dictSet_ne _ _ (fun he => hid he.symm)]
                exact hv, hvc⟩
          · rcases h with ⟨v, hv, hvc⟩
            exact ⟨v, by
              dsimp only
              rw [if_neg hw]
              exact hv, hvc⟩
  | promptChoice idx c =>
    show ∃ v, dictGet (promptSelectChoice app.parameter_options st.paramValues idx c) so.id
      = some (some v) ∧ v ∈ so.choices
    unfold promptSelectChoice
    by_cases hrange : idx < 1 ∨ app.parameter_options.length < idx
    · simp only [if_pos hrange]
      exact h
    · simp only [if_neg hrange]
      cases hg : app.parameter_options.get? (idx - 1) with
      | none => exact h
      | some o =>
        cases o with
        | input io => exact h
        | select so2 =>
          by_cases hw : c ∈ so2.choices
          · by_cases hid : so2.id = so.id
            · have hmem2 : ParamOption.select so2 ∈ app.parameter_options :=
                List.get?_mem hg
              have heq := List.inj_on_of_nodup_map hnd hmem2 hso
                (show ParamOption.id (ParamOption.select so2)
                    = ParamOption.id (ParamOption.select so) by
                  simpa [ParamOption.id] using hid)
              have hso2 : so2 = so := by
                cases heq
                rfl
              subst hso2
              exact ⟨c, by
                dsimp only
                rw [if_pos hw, hid, dictGet_dictSet_self], hw⟩
            · rcases h with ⟨v, hv, hvc⟩
              exact ⟨v, by
                dsimp only
                rw [if_pos hw, dictGet_dictSet_ne _ _ (fun he => hid he.symm)]
                exact hv, hvc⟩
          · rcases h with ⟨v, hv, hvc⟩
            exact ⟨v, by
              dsimp only
              rw [if_neg hw]
              exact hv, hvc⟩
  | applyPreset nm =>
    show ∃ v, dictGet (applyPresetNamed app st nm).1.paramValues so.id
      = some (some v) ∧ v ∈ so.choices
    unfold applyPresetNamed
    cases hp : dictGet (presetsDict app) nm with
    | none => exact h
    | some p =>
      dsimp only
      rcases hdef with ⟨v0, hv0, hv0c⟩
      have hreset : dictGet
          (app.parameter_options.foldl (fun d o => dictSet d o.id o.defaultVal)
            st.paramValues) so.id = some (some v0) := by
        have h2 : dictGet
            (app.parameter_options.foldl (fun d o => dictSet d o.id o.defaultVal)
              st.paramValues) so.id = some so.default :=
          foldl_set_get_nodup (f := ParamOption.id)
            (g := ParamOption.defaultVal) hnd hso st.paramValues
        rw [h2, hv0]
      have hfind : app.parameter_options.find? (fun o => o.id == so.id)
          = some (ParamOption.select so) := find?_key_nodup hnd hso
      exact overlay_select_invariant app p.name so hfind p.input_values _ []
        ⟨v0, hreset, hv0c⟩

/-- C2: a ChoiceOption constructed with a non-empty choices list keeps a
form-state value that is a member of its choices under every sequence of
set-value and preset-application operations, starting from the
construction-time default, which is itself a member. -/
theorem choice_value_closure (app : RichApp)
    (hnd : (app.parameter_options.map ParamOption.id).Nodup)
    (l i a : String) (cs : List String) (d : Option String) (hcs : cs ≠ [])
    (hmem : ParamOption.select (SelectOption.make l i a cs d)
      ∈ app.parameter_options)
    (ops : List FormOp) :
    ∃ v, dictGet (runOps app (initState app) ops).paramValues i
      = some (some v) ∧ v ∈ cs := by
  have hdef := SelectOption.make_default_mem l i a hcs d
  have hinit : ∃ v, dictGet (initState app).paramValues
      (SelectOption.make l i a cs d).id = some (some v) ∧
      v ∈ (SelectOption.make l i a cs d).choices := by
    rcases hdef with ⟨v0, hv0, hv0c⟩
    refine ⟨v0, ?_, hv0c⟩
    show dictGet (app.parameter_options.foldl
      (fun d o => dictSet d o.id o.defaultVal) []) _ = _
    have h2 : dictGet
        (app.parameter_options.foldl (fun d o => dictSet d o.id o.defaultVal) [])
        (SelectOption.make l i a cs d).id
          = some (SelectOption.make l i a cs d).default :=
      foldl_set_get_nodup (f := ParamOption.id)
        (g := ParamOption.defaultVal) hnd hmem []
    rw [h2, hv0]
  have haux : ∀ (ops' : List FormOp) (st : FormState),
      (∃ v, dictGet st.paramValues (SelectOption.make l i a cs d).id
        = some (some v) ∧ v ∈ (SelectOption.make l i a cs d).choices) →
      ∃ v, dictGet (runOps app st ops').paramValues
        (SelectOption.make l i a cs d).id = some (some v) ∧
        v ∈ (SelectOption.make l i a cs d).choices := by
    intro ops'
    induction ops' with
    | nil => intro st h; exact h
    | cons op t ih =>
      intro st h
      exact ih (runOp app st op)
        (choice_invariant_step app hnd _ hmem hdef st op h)
  exact haux ops (initState app) hinit

/-- Witness for C2 at a concrete form, running a rejected set, a valid
set, and a preset application whose preset carries an invalid value. -/
theorem choice_value_closure_witness :
    ∃ v, dictGet
      (runOps
        { program := "p", checkbox_options := []
          parameter_options :=
            [ParamOption.select
              (SelectOption.make "M" "mode" "--mode" ["fast", "normal", "safe"]
                (some "normal"))]
          extra_args := []
          presets := [{ name := "q", description := ""
                        checkbox_options := [], input_values := [("mode", "turbo")] }] }
        (initState
          { program := "p", checkbox_options := []
            parameter_options :=
              [ParamOption.select
                (SelectOption.make "M" "mode" "--mode" ["fast", "normal", "safe"]
                  (some "normal"))]
            extra_args := []
            presets := [{ name := "q", description := ""
                          checkbox_options := [], input_values := [("mode", "turbo")] }] })
        [FormOp.setParam 1 "turbo", FormOp.setParam 1 "safe",
         FormOp.applyPreset "q", FormOp.promptChoice 1 "fast"]).paramValues
      "mode" = some (some v) ∧ v ∈ ["fast", "normal", "safe"] :=
  choice_value_closure
    { program := "p", checkbox_options := []
      parameter_options :=
        [ParamOption.select
          (SelectOption.make "M" "mode" "--mode" ["fast", "normal", "safe"]
            (some "normal"))]
      extra_args := []
      presets := [{ name := "q", description := ""
                    checkbox_options := [], input_values := [("mode", "turbo")] }] }
    (by decide) "M" "mode" "--mode" ["fast", "normal", "safe"] (some "normal")
    (by decide) (by decide)
    [FormOp.setParam 1 "turbo", FormOp.setParam 1 "safe",
     FormOp.applyPreset "q", FormOp.promptChoice 1 "fast"]

/-! ## C6: preset value validation and warnings -/

/-- One overlay step at the key of a found `SelectOption`, rejected value:
the dictionary is unchanged and the four-field warning is appended. -/
theorem presetOverlayStep_select_reject (app : RichApp) (name : String)
    (pv : List (String × Option String)) (ws : List PresetWarning)
    (so : SelectOption) (w : String)
    (hfind : app.parameter_options.find? (fun o => o.id == so.id)
      = some (ParamOption.select so))
    (hc : dictContains pv so.id = true) (hw : w ∉ so.choices) :
    presetOverlayStep app name (pv, ws) (so.id, w)
      = (pv, ws ++ [{ presetName := name, optionId := so.id, rejected := w
                      retained := dictGetD pv so.id none }]) := by
  unfold presetOverlayStep
  simp [hc, hfind, hw]

/-- One overlay step at the key of a found `InputOption`: the value is
stored verbatim. -/
theorem presetOverlayStep_input (app : RichApp) (name : String)
    (pv : List (String × Option String)) (ws : List PresetWarning)
    (io : InputOption) (w : String)
    (hfind : app.parameter_options.find? (fun o => o.id == io.id)
      = some (ParamOption.input io))
    (hc : dictContains pv io.id = true) :
    presetOverlayStep app name (pv, ws) (io.id, w)
      = (dictSet pv io.id (some w), ws) := by
  unfold presetOverlayStep
  simp [hc, hfind]

/-- Overlay steps only ever append warnings. -/
theorem presetOverlayStep_ws_mono (app : RichApp) (name : String)
    (pv : List (String × Option String)) (ws : List PresetWarning)
    (e : String × String) {w : PresetWarning} (h : w ∈ ws) :
    w ∈ (presetOverlayStep app name (pv, ws) e).2 := by
  rcases e with ⟨i, wv⟩
  unfold presetOverlayStep
  by_cases hc : dictContains pv i = true
  · simp only [hc, if_true]
    cases hf : app.parameter_options.find? (fun o => o.id == i) with
    | none => simpa using h
    | some o =>
      cases o with
      | input io => simpa using h
      | select so =>
        by_cases hw : wv ∈ so.choices
        · simp only [hw, if_true]
          exact h
        · simp only [hw, if_false]
          exact List.mem_append_left _ h
  · simp only [hc, if_false]
    exact h

/-- A warning present in the accumulator survives the rest of the overlay
loop. -/
theorem overlay_ws_mono (app : RichApp) (name : String) :
    ∀ (entries : List (String × String)) (pv : List (String × Option String))
      (ws : List PresetWarning) {w : PresetWarning}, w ∈ ws →
      w ∈ (entries.foldl (presetOverlayStep app name) (pv, ws)).2 := by
  intro entries
  induction entries with
  | nil => intro pv ws w h; exact h
  | cons e t ih =>
    intro pv ws w h
    simp only [List.foldl_cons]
    exact ih (presetOverlayStep app name (pv, ws) e).1
      (presetOverlayStep app name (pv, ws) e).2
      (presetOverlayStep_ws_mono app name pv ws e h)

/-- The overlay loop never changes the value dictionary at a key none of
its entries carries. -/
theorem overlay_get_untouched (app : RichApp) (name : String) {k : String} :
    ∀ (entries : List (String × String)) (pv : List (String × Option String))
      (ws : List PresetWarning), (∀ e ∈ entries, e.1 ≠ k) →
      dictGet (entries.foldl (presetOverlayStep app name) (pv, ws)).1 k
        = dictGet pv k := by
  intro entries
  induction entries with
  | nil => intro pv ws _; rfl
  | cons e t ih =>
    intro pv ws h
    rcases e with ⟨i, wv⟩
    simp only [List.foldl_cons]
    rw [ih (presetOverlayStep app name (pv, ws) (i, wv)).1
      (presetOverlayStep app name (pv, ws) (i, wv)).2
      (fun e he => h e (List.mem_cons_of_mem _ he))]
    exact presetOverlayStep_other app name pv ws i wv
      (fun he => h (i, wv) (List.mem_cons_self _ _) he.symm)

/-- Processing the overlay with an entry for a found `SelectOption` among
duplicate-free entry keys: a valid value is stored; an invalid one leaves
the dictionary value as it was and surfaces the four-field warning. -/
theorem overlay_entry_select (app : RichApp) (name : String)
    (so : SelectOption) (v : String)
    (hfind : app.parameter_options.find? (fun o => o.id == so.id)
      = some (ParamOption.select so)) :
    ∀ (entries : List (String × String)) (pv : List (String × Option String))
      (ws : List PresetWarning),
      (entries.map Prod.fst).Nodup → (so.id, v) ∈ entries →
      dictContains pv so.id = true →
      ((v ∈ so.choices →
        dictGet (entries.foldl (presetOverlayStep app name) (pv, ws)).1 so.id
          = some (some v)) ∧
       (v ∉ so.choices →
        dictGet (entries.foldl (presetOverlayStep app name) (pv, ws)).1 so.id
          = dictGet pv so.id ∧
        ({ presetName := name, optionId := so.id, rejected := v
           retained := dictGetD pv so.id none } : PresetWarning)
          ∈ (entries.foldl (presetOverlayStep app name) (pv, ws)).2)) := by
  intro entries
  induction entries with
  | nil => intro pv ws _ hmem _; simp at hmem
  | cons e t ih =>
    intro pv ws hkeys hmem hc
    rcases e with ⟨i, w⟩
    rcases List.mem_cons.mp hmem with he | ht
    · have hi : i = so.id := (Prod.mk.injEq _ _ _ _ ▸ he.symm).1
      have hw : w = v := (Prod.mk.injEq _ _ _ _ ▸ he.symm).2
      subst hi
      subst hw
      have hnot : ∀ e ∈ t, e.1 ≠ so.id := by
        intro e he' heq
        have : so.id ∈ t.map Prod.fst := heq ▸ List.mem_map_of_mem Prod.fst he'
        exact (List.nodup_cons.mp hkeys).1 this
      constructor
      · intro hv
        simp only [List.foldl_cons]
        have h1 := presetOverlayStep_select app name pv ws so w hfind hc
        rw [if_pos hv] at h1
        rw [overlay_get_untouched app name t
          (presetOverlayStep app name (pv, ws) (so.id, w)).1
          (presetOverlayStep app name (pv, ws) (so.id, w)).2 hnot]
        rw [h1, dictGet_dictSet_self]
      · intro hv
        simp only [List.foldl_cons]
        have h1 := presetOverlayStep_select_reject app name pv ws so w hfind hc hv
        constructor
        · rw [overlay_get_untouched app name t
            (presetOverlayStep app name (pv, ws) (so.id, w)).1
            (presetOverlayStep app name (pv, ws) (so.id, w)).2 hnot]
          rw [h1]
        · rw [h1]
          exact overlay_ws_mono app name t _ _
            (List.mem_append_right _ (List.mem_singleton.mpr rfl))
    · have hine : i ≠ so.id := by
        intro heq
        have : so.id ∈ t.map Prod.fst := List.mem_map_of_mem Prod.fst ht
        exact (List.nodup_cons.mp hkeys).1 (heq ▸ this)
      have hpres := presetOverlayStep_other app name pv ws i w
        (k := so.id) (fun he' => hine he'.symm)
      have hc' : dictContains (presetOverlayStep app name (pv, ws) (i, w)).1 so.id
          = true := by
        unfold dictContains at hc ⊢
        rw [hpres]
        exact hc
      have := ih (presetOverlayStep app name (pv, ws) (i, w)).1
        (presetOverlayStep app name (pv, ws) (i, w)).2
        (List.nodup_cons.mp hkeys).2 ht hc'
      simp only [List.foldl_cons]
      constructor
      · intro hv
        exact this.1 hv
      · intro hv
        rcases this.2 hv with ⟨hg, hwarn⟩
        refine ⟨by rw [hg, hpres], ?_⟩
        have hgd : dictGetD (presetOverlayStep app name (pv, ws) (i, w)).1 so.id none
            = dictGetD pv so.id none := by
          unfold dictGetD
          rw [hpres]
        rw [hgd] at hwarn
        exact hwarn

/-- Processing the overlay with an entry for a found `InputOption` among
duplicate-free entry keys: the value is stored verbatim. -/
theorem overlay_entry_input (app : RichApp) (name : String)
    (io : InputOption) (v : String)
    (hfind : app.parameter_options.find? (fun o => o.id == io.id)
      = some (ParamOption.input io)) :
    ∀ (entries : List (String × String)) (pv : List (String × Option String))
      (ws : List PresetWarning),
      (entries.map Prod.fst).Nodup → (io.id, v) ∈ entries →
      dictContains pv io.id = true →
      dictGet (entries.foldl (presetOverlayStep app name) (pv, ws)).1 io.id
        = some (some v) := by
  intro entries
  induction entries with
  | nil => intro pv ws _ hmem _; simp at hmem
  | cons e t ih =>
    intro pv ws hkeys hmem hc
    rcases e with ⟨i, w⟩
    rcases List.mem_cons.mp hmem with he | ht
    · have hi : i = io.id := (Prod.mk.injEq _ _ _ _ ▸ he.symm).1
      have hw : w = v := (Prod.mk.injEq _ _ _ _ ▸ he.symm).2
      subst hi
      subst hw
      have hnot : ∀ e ∈ t, e.1 ≠ io.id := by
        intro e he' heq
        have : io.id ∈ t.map Prod.fst := heq ▸ List.mem_map_of_mem Prod.fst he'
        exact (List.nodup_cons.mp hkeys).1 this
      simp only [List.foldl_cons]
      have h1 := presetOverlayStep_input app name pv ws io w hfind hc
      rw [overlay_get_untouched app name t
        (presetOverlayStep app name (pv, ws) (io.id, w)).1
        (presetOverlayStep app name (pv, ws) (io.id, w)).2 hnot]
      rw [h1, dictGet_dictSet_self]
    · have hine : i ≠ io.id := by
        intro heq
        have : io.id ∈ t.map Prod.fst := List.mem_map_of_mem Prod.fst ht
        exact (List.nodup_cons.mp hkeys).1 (heq ▸ this)
      have hpres := presetOverlayStep_other app name pv ws i w
        (k := io.id) (fun he' => hine he'.symm)
      have hc' : dictContains (presetOverlayStep app name (pv, ws) (i, w)).1 io.id
          = true := by
        unfold dictContains at hc ⊢
        rw [hpres]
        exact hc
      simp only [List.foldl_cons]
      exact ih (presetOverlayStep app name (pv, ws) (i, w)).1
        (presetOverlayStep app name (pv, ws) (i, w)).2
        (List.nodup_cons.mp hkeys).2 ht hc'

/-- C6: during preset application, an entry naming a ChoiceOption sets the
option's value only when the value is a member of its choices; otherwise
the option keeps the default just applied by the reset and a non-fatal
warning carrying the preset name, the option id, the rejected value and
the retained default is surfaced; an entry naming a TextOption sets its
value verbatim.  (Unique option ids and unique entry ids, as Python's
dict of preset values guarantees.) -/
theorem preset_value_overlay_semantics (app : RichApp) (st : FormState)
    (preset : PresetConfig)
    (hnd : (app.parameter_options.map ParamOption.id).Nodup)
    (hkeys : (preset.input_values.map Prod.fst).Nodup) :
    (∀ so v, ParamOption.select so ∈ app.parameter_options →
      (so.id, v) ∈ preset.input_values →
      (v ∈ so.choices →
        dictGet (applyPresetConfig app st preset).1.paramValues so.id
          = some (some v)) ∧
      (v ∉ so.choices →
        dictGet (applyPresetConfig app st preset).1.paramValues so.id
          = some so.default ∧
        ({ presetName := preset.name, optionId := so.id, rejected := v
           retained := so.default } : PresetWarning)
          ∈ (applyPresetConfig app st preset).2)) ∧
    (∀ io v, ParamOption.input io ∈ app.parameter_options →
      (io.id, v) ∈ preset.input_values →
      dictGet (applyPresetConfig app st preset).1.paramValues io.id
        = some (some v)) := by
  constructor
  · intro so v hso hentry
    have hfind : app.parameter_options.find? (fun o => o.id == so.id)
        = some (ParamOption.select so) := find?_key_nodup hnd hso
    have hcontains : dictContains
        (app.parameter_options.foldl (fun d o => dictSet d o.id o.defaultVal)
          st.paramValues) so.id = true :=
      dictContains_iff.mpr
        (foldl_set_key_mem (f := ParamOption.id)
          (g := ParamOption.defaultVal) hso st.paramValues)
    have hreset : dictGet
        (app.parameter_options.foldl (fun d o => dictSet d o.id o.defaultVal)
          st.paramValues) so.id = some so.default :=
      foldl_set_get_nodup (f := ParamOption.id)
        (g := ParamOption.defaultVal) hnd hso st.paramValues
    have hmain := overlay_entry_select app preset.name so v hfind
      preset.input_values _ [] hkeys hentry hcontains
    constructor
    · intro hv
      exact hmain.1 hv
    · intro hv
      rcases hmain.2 hv with ⟨hg, hwarn⟩
      refine ⟨by rw [show (applyPresetConfig app st preset).1.paramValues
        = (preset.input_values.foldl (presetOverlayStep app preset.name)
            (app.parameter_options.foldl (fun d o => dictSet d o.id o.defaultVal)
              st.paramValues, [])).1 from rfl]; rw [hg, hreset], ?_⟩
      have hgd : dictGetD
          (app.parameter_options.foldl (fun d o => dictSet d o.id o.defaultVal)
            st.paramValues) so.id none = so.default := by
        unfold dictGetD
        rw [hreset]
        rfl
      rw [hgd] at hwarn
      exact hwarn
  · intro io v hio hentry
    have hfind : app.parameter_options.find? (fun o => o.id == io.id)
        = some (ParamOption.input io) := find?_key_nodup hnd hio
    have hcontains : dictContains
        (app.parameter_options.foldl (fun d o => dictSet d o.id o.defaultVal)
          st.paramValues) io.id = true :=
      dictContains_iff.mpr
        (foldl_set_key_mem (f := ParamOption.id)
          (g := ParamOption.defaultVal) hio st.paramValues)
    exact overlay_entry_input app preset.name io v hfind
      preset.input_values _ [] hkeys hentry hcontains

/-- Witness for C6 at a concrete form: the preset value `"turbo"` for the
choice option is rejected — the reset default `"normal"` is retained and
the four-field warning is surfaced — while the text option receives
`"hello"` verbatim. -/
theorem preset_value_overlay_semantics_witness :
    (dictGet
        (applyPresetConfig
          { program := "p", checkbox_options := []
            parameter_options :=
              [ParamOption.select
                (SelectOption.make "M" "mode" "--mode" ["fast", "normal"]
                  (some "normal")),
               ParamOption.input
                { label := "T", id := "txt", arg := "--txt", default := ""
                  placeholder := "" }]
            extra_args := [], presets := [] }
          (initState
            { program := "p", checkbox_options := []
              parameter_options :=
                [ParamOption.select
                  (SelectOption.make "M" "mode" "--mode" ["fast", "normal"]
                    (some "normal")),
                 ParamOption.input
                  { label := "T", id := "txt", arg := "--txt", default := ""
                    placeholder := "" }]
              extra_args := [], presets := [] })
          { name := "q", description := ""
            checkbox_options := [], input_values := [("mode", "turbo"), ("txt", "hello")] }).1.paramValues
        "mode" = some (some "normal") ∧
     ({ presetName := "q", optionId := "mode", rejected := "turbo"
        retained := some "normal" } : PresetWarning)
       ∈ (applyPresetConfig
          { program := "p", checkbox_options := []
            parameter_options :=
              [ParamOption.select
                (SelectOption.make "M" "mode" "--mode" ["fast", "normal"]
                  (some "normal")),
               ParamOption.input
                { label := "T", id := "txt", arg := "--txt", default := ""
                  placeholder := "" }]
            extra_args := [], presets := [] }
          (initState
            { program := "p", checkbox_options := []
              parameter_options :=
                [ParamOption.select
                  (SelectOption.make "M" "mode" "--mode" ["fast", "normal"]
                    (some "normal")),
                 ParamOption.input
                  { label := "T", id := "txt", arg := "--txt", default := ""
                    placeholder := "" }]
              extra_args := [], presets := [] })
          { name := "q", description := ""
            checkbox_options := [], input_values := [("mode", "turbo"), ("txt", "hello")] }).2) ∧
    dictGet
        (applyPresetConfig
          { program := "p", checkbox_options := []
            parameter_options :=
              [ParamOption.select
                (SelectOption.make "M" "mode" "--mode" ["fast", "normal"]
                  (some "normal")),
               ParamOption.input
                { label := "T", id := "txt", arg := "--txt", default := ""
                  placeholder := "" }]
            extra_args := [], presets := [] }
          (initState
            { program := "p", checkbox_options := []
              parameter_options :=
                [ParamOption.select
                  (SelectOption.make "M" "mode" "--mode" ["fast", "normal"]
                    (some "normal")),
                 ParamOption.input
                  { label := "T", id := "txt", arg := "--txt", default := ""
                    placeholder := "" }]
              extra_args := [], presets := [] })
          { name := "q", description := ""
            checkbox_options := [], input_values := [("mode", "turbo"), ("txt", "hello")] }).1.paramValues
        "txt" = some (some "hello") := by
  refine ⟨?_, ?_⟩
  · exact ((preset_value_overlay_semantics
      { program := "p", checkbox_options := []
        parameter_options :=
          [ParamOption.select
            (SelectOption.make "M" "mode" "--mode" ["fast", "normal"]
              (some "normal")),
           ParamOption.input
            { label := "T", id := "txt", arg := "--txt", default := ""
              placeholder := "" }]
        extra_args := [], presets := [] }
      (initState
        { program := "p", checkbox_options := []
          parameter_options :=
            [ParamOption.select
              (SelectOption.make "M" "mode" "--mode" ["fast", "normal"]
                (some "normal")),
             ParamOption.input
              { label := "T", id := "txt", arg := "--txt", default := ""
                placeholder := "" }]
          extra_args := [], presets := [] })
      { name := "q", description := ""
        checkbox_options := [], input_values := [("mode", "turbo"), ("txt", "hello")] }
      (by decide) (by decide)).1
      (SelectOption.make "M" "mode" "--mode" ["fast", "normal"] (some "normal"))
      "turbo" (by decide) (by decide)).2 (by decide)
  · exact (preset_value_overlay_semantics
      { program := "p", checkbox_options := []
        parameter_options :=
          [ParamOption.select
            (SelectOption.make "M" "mode" "--mode" ["fast", "normal"]
              (some "normal")),
           ParamOption.input
            { label := "T", id := "txt", arg := "--txt", default := ""
              placeholder := "" }]
        extra_args := [], presets := [] }
      (initState
        { program := "p", checkbox_options := []
          parameter_options :=
            [ParamOption.select
              (SelectOption.make "M" "mode" "--mode" ["fast", "normal"]
                (some "normal")),
             ParamOption.input
              { label := "T", id := "txt", arg := "--txt", default := ""
                placeholder := "" }]
          extra_args := [], presets := [] })
      { name := "q", description := ""
        checkbox_options := [], input_values := [("mode", "turbo"), ("txt", "hello")] }
      (by decide) (by decide)).2
      { label := "T", id := "txt", arg := "--txt", default := "", placeholder := "" }
      "hello" (by decide) (by decide)

/-! ## C3: idempotence and reset-then-overlay machinery -/

/-- One overlay step never changes the key list: it only writes keys the
dictionary already contains. -/
theorem presetOverlayStep_keys (app : RichApp) (name : String)
    (pv : List (String × Option String)) (ws : List PresetWarning)
    (e : String × String) :
    keysList (presetOverlayStep app name (pv, ws) e).1 = keysList pv := by
  rcases e with ⟨i, w⟩
  unfold presetOverlayStep
  by_cases hc : dictContains pv i = true
  · have hmem : i ∈ keysList pv := dictContains_iff.mp hc
    have hset : ∀ v' : Option String, keysList (dictSet pv i v') = keysList pv := by
      intro v'
      rw [keysList_dictSet]
      simp [hmem]
    simp only [hc, if_true]
    cases hf : app.parameter_options.find? (fun o => o.id == i) with
    | none => simp [hset]
    | some o =>
      cases o with
      | input io => simp [hset]
      | select so =>
        by_cases hw : w ∈ so.choices
        · simp [hw, hset]
        · simp [hw]
  · simp [hc]

/-- The whole overlay loop preserves the key list. -/
theorem overlay_keys (app : RichApp) (name : String) :
    ∀ (entries : List (String × String)) (pv : List (String × Option String))
      (ws : List PresetWarning),
      keysList (entries.foldl (presetOverlayStep app name) (pv, ws)).1
        = keysList pv := by
  intro entries
  induction entries with
  | nil => intro pv ws; rfl
  | cons e t ih =>
    intro pv ws
    simp only [List.foldl_cons]
    rw [ih (presetOverlayStep app name (pv, ws) e).1
      (presetOverlayStep app name (pv, ws) e).2]
    exact presetOverlayStep_keys app name pv ws e

/-- The overlay never touches a key the dictionary does not contain. -/
theorem overlay_get_not_contained (app : RichApp) (name : String) {k : String} :
    ∀ (entries : List (String × String)) (pv : List (String × Option String))
      (ws : List PresetWarning), dictContains pv k = false →
      dictGet (entries.foldl (presetOverlayStep app name) (pv, ws)).1 k
        = dictGet pv k := by
  intro entries
  induction entries with
  | nil => intro pv ws _; rfl
  | cons e t ih =>
    intro pv ws hc
    rcases e with ⟨i, w⟩
    simp only [List.foldl_cons]
    have hget : dictGet (presetOverlayStep app name (pv, ws) (i, w)).1 k
        = dictGet pv k := by
      by_cases hik : k = i
      · subst hik
        unfold presetOverlayStep
        simp [hc]
      · exact presetOverlayStep_other app name pv ws i w hik
    have hc' : dictContains (presetOverlayStep app name (pv, ws) (i, w)).1 k
        = false := by
      unfold dictContains at hc ⊢
      rw [hget]
      exact hc
    rw [ih (presetOverlayStep app name (pv, ws) (i, w)).1
      (presetOverlayStep app name (pv, ws) (i, w)).2 hc', hget]

/-- The overlay's effect at one key is determined by the dictionary's key
list and its value at that key. -/
theorem overlay_get_congr (app : RichApp) (name : String) {k : String} :
    ∀ (entries : List (String × String))
      (pv1 pv2 : List (String × Option String))
      (ws1 ws2 : List PresetWarning),
      keysList pv1 = keysList pv2 → dictGet pv1 k = dictGet pv2 k →
      dictGet (entries.foldl (presetOverlayStep app name) (pv1, ws1)).1 k
        = dictGet (entries.foldl (presetOverlayStep app name) (pv2, ws2)).1 k := by
  intro entries
  induction entries with
  | nil => intro pv1 pv2 ws1 ws2 _ hget; exact hget
  | cons e t ih =>
    intro pv1 pv2 ws1 ws2 hkeys hget
    rcases e with ⟨i, w⟩
    simp only [List.foldl_cons]
    have hcsame : dictContains pv1 i = dictContains pv2 i := by
      have hiff : (dictContains pv1 i = true) ↔ (dictContains pv2 i = true) := by
        rw [dictContains_iff, dictContains_iff, hkeys]
      cases h1 : dictContains pv1 i <;> cases h2 : dictContains pv2 i <;> simp_all
    have hstepkeys1 := presetOverlayStep_keys app name pv1 ws1 (i, w)
    have hstepkeys2 := presetOverlayStep_keys app name pv2 ws2 (i, w)
    have hstepget : dictGet (presetOverlayStep app name (pv1, ws1) (i, w)).1 k
        = dictGet (presetOverlayStep app name (pv2, ws2) (i, w)).1 k := by
      unfold presetOverlayStep
      by_cases hc : dictContains pv1 i = true
      · have hc2 : dictContains pv2 i = true := hcsame ▸ hc
        simp only [hc, hc2, if_true]
        cases hf : app.parameter_options.find? (fun o => o.id == i) with
        | none =>
          dsimp only
          by_cases hik : k = i
          · subst hik
            rw [dictGet_dictSet_self, dictGet_dictSet_self]
          · rw [dictGet_dictSet_ne _ _ hik, dictGet_dictSet_ne _ _ hik]
            exact hget
        | some o =>
          cases o with
          | input io =>
            dsimp only
            by_cases hik : k = i
            · subst hik
              rw [dictGet_dictSet_self, dictGet_dictSet_self]
            · rw [dictGet_dictSet_ne _ _ hik, dictGet_dictSet_ne _ _ hik]
              exact hget
          | select so =>
            by_cases hw : w ∈ so.choices
            · simp only [hw, if_true]
              by_cases hik : k = i
              · subst hik
                rw [dictGet_dictSet_self, dictGet_dictSet_self]
              · rw [dictGet_dictSet_ne _ _ hik, dictGet_dictSet_ne _ _ hik]
                exact hget
            · simp only [hw, if_false]
              exact hget
      · have hc2 : ¬ dictContains pv2 i = true := by
          rw [← hcsame]
          exact hc
        simp only [hc, hc2, if_false]
        exact hget
    exact ih (presetOverlayStep app name (pv1, ws1) (i, w)).1
      (presetOverlayStep app name (pv2, ws2) (i, w)).1
      (presetOverlayStep app name (pv1, ws1) (i, w)).2
      (presetOverlayStep app name (pv2, ws2) (i, w)).2
      (by rw [hstepkeys1, hstepkeys2]; exact hkeys) hstepget

/-- Keys of a write fold over an empty start all come from the writes. -/
theorem mem_keys_foldl_set_iff {α β : Type} {f : α → String} {g : α → β}
    {l : List α} {k : String} :
    ∀ {d : List (String × β)},
      (k ∈ keysList (l.foldl (fun d x => dictSet d (f x) (g x)) d)
        ↔ k ∈ keysList d ∨ ∃ x ∈ l, f x = k) := by
  induction l with
  | nil => intro d; simp
  | cons x t ih =>
    intro d
    simp only [List.foldl_cons]
    rw [ih]
    rw [mem_keysList_dictSet]
    constructor
    · rintro ((h | h) | ⟨y, hy, hk⟩)
      · exact Or.inl h
      · exact Or.inr ⟨x, List.mem_cons_self x t, h.symm⟩
      · exact Or.inr ⟨y, List.mem_cons_of_mem x hy, hk⟩
    · rintro (h | ⟨y, hy, hk⟩)
      · exact Or.inl (Or.inl h)
      · rcases List.mem_cons.mp hy with rfl | hyt
        · exact Or.inl (Or.inr hk.symm)
        · exact Or.inr ⟨y, hyt, hk⟩

/-- Applying the same preset's checkbox phase twice equals applying it
once. -/
theorem cb_apply_idem (app : RichApp) (preset : PresetConfig)
    (cb0 : List (String × Bool)) (hnd : (keysList cb0).Nodup) :
    preset.checkbox_options.foldl (fun d i => dictSet d i true)
      (app.checkbox_options.foldl (fun d o => dictSet d o.id false)
        (preset.checkbox_options.foldl (fun d i => dictSet d i true)
          (app.checkbox_options.foldl (fun d o => dictSet d o.id false) cb0)))
    = preset.checkbox_options.foldl (fun d i => dictSet d i true)
        (app.checkbox_options.foldl (fun d o => dictSet d o.id false) cb0) := by
  have hXopts : ∀ o ∈ app.checkbox_options,
      o.id ∈ keysList (preset.checkbox_options.foldl (fun d i => dictSet d i true)
        (app.checkbox_options.foldl (fun d o => dictSet d o.id false) cb0)) :=
    fun o ho => mem_keys_foldl_set (f := fun i => i) (g := fun _ => true) _
      (foldl_set_key_mem (f := CheckboxOption.id) (g := fun _ => false) ho cb0)
  have hXpids : ∀ i ∈ preset.checkbox_options,
      i ∈ keysList (preset.checkbox_options.foldl (fun d i => dictSet d i true)
        (app.checkbox_options.foldl (fun d o => dictSet d o.id false) cb0)) :=
    fun i hi => foldl_set_key_mem (f := fun i => i) (g := fun _ => true) hi _
  have hk1 : keysList (app.checkbox_options.foldl (fun d o => dictSet d o.id false)
        (preset.checkbox_options.foldl (fun d i => dictSet d i true)
          (app.checkbox_options.foldl (fun d o => dictSet d o.id false) cb0)))
      = keysList (preset.checkbox_options.foldl (fun d i => dictSet d i true)
          (app.checkbox_options.foldl (fun d o => dictSet d o.id false) cb0)) :=
    foldl_set_keys_stable hXopts
  have hk2 : keysList (preset.checkbox_options.foldl (fun d i => dictSet d i true)
        (app.checkbox_options.foldl (fun d o => dictSet d o.id false)
          (preset.checkbox_options.foldl (fun d i => dictSet d i true)
            (app.checkbox_options.foldl (fun d o => dictSet d o.id false) cb0))))
      = keysList (app.checkbox_options.foldl (fun d o => dictSet d o.id false)
          (preset.checkbox_options.foldl (fun d i => dictSet d i true)
            (app.checkbox_options.foldl (fun d o => dictSet d o.id false) cb0))) :=
    foldl_set_keys_stable (fun i hi => hk1 ▸ hXpids i hi)
  apply dict_ext
  · rw [hk2, hk1]
    exact foldl_set_nodup_keys (foldl_set_nodup_keys hnd)
  · rw [hk2, hk1]
  · intro k
    by_cases hp : ∃ i ∈ preset.checkbox_options, i = k
    · have hp' : ∃ i ∈ preset.checkbox_options, (fun i => i) i = k := hp
      rw [foldl_set_get_const (f := fun i => i) hp',
          foldl_set_get_const (f := fun i => i) hp']
    · have hnp : ∀ i ∈ preset.checkbox_options, (fun i : String => i) i ≠ k :=
        fun i hi he => hp ⟨i, hi, he⟩
      simp only [foldl_set_get_untouched (f := fun i => i) hnp]
      by_cases ho : ∃ o ∈ app.checkbox_options, o.id = k
      · have ho' : ∃ o ∈ app.checkbox_options, CheckboxOption.id o = k := ho
        rw [foldl_set_get_const (f := CheckboxOption.id) ho',
            foldl_set_get_const (f := CheckboxOption.id) ho']
      · have hno : ∀ o ∈ app.checkbox_options, CheckboxOption.id o ≠ k :=
          fun o hoo he => ho ⟨o, hoo, he⟩
        simp only [foldl_set_get_untouched (f := CheckboxOption.id) hno,
          foldl_set_get_untouched (f := fun i => i) hnp]

/-- Applying the same preset's value phase (reset then overlay) twice
equals applying it once, provided every value-map key names a declared
option — as in every state the program constructs. -/
theorem pv_apply_idem (app : RichApp) (preset : PresetConfig)
    (pv0 : List (String × Option String)) (hnd : (keysList pv0).Nodup)
    (hsub : ∀ k ∈ keysList pv0, ∃ o ∈ app.parameter_options, o.id = k) :
    (preset.input_values.foldl (presetOverlayStep app preset.name)
      (app.parameter_options.foldl (fun d o => dictSet d o.id o.defaultVal)
        (preset.input_values.foldl (presetOverlayStep app preset.name)
          (app.parameter_options.foldl (fun d o => dictSet d o.id o.defaultVal) pv0,
           [])).1,
       [])).1
    = (preset.input_values.foldl (presetOverlayStep app preset.name)
        (app.parameter_options.foldl (fun d o => dictSet d o.id o.defaultVal) pv0,
         [])).1 := by
  have hA : keysList (preset.input_values.foldl (presetOverlayStep app preset.name)
        (app.parameter_options.foldl (fun d o => dictSet d o.id o.defaultVal) pv0,
         [])).1
      = keysList (app.parameter_options.foldl
          (fun d o => dictSet d o.id o.defaultVal) pv0) :=
    overlay_keys app preset.name preset.input_values _ []
  have hB : ∀ o ∈ app.parameter_options,
      o.id ∈ keysList (preset.input_values.foldl (presetOverlayStep app preset.name)
        (app.parameter_options.foldl (fun d o => dictSet d o.id o.defaultVal) pv0,
         [])).1 := by
    intro o ho
    rw [hA]
    exact foldl_set_key_mem (f := ParamOption.id) (g := ParamOption.defaultVal)
      ho pv0
  have hC : keysList (app.parameter_options.foldl
        (fun d o => dictSet d o.id o.defaultVal)
        (preset.input_values.foldl (presetOverlayStep app preset.name)
          (app.parameter_options.foldl (fun d o => dictSet d o.id o.defaultVal) pv0,
           [])).1)
      = keysList (preset.input_values.foldl (presetOverlayStep app preset.name)
          (app.parameter_options.foldl (fun d o => dictSet d o.id o.defaultVal) pv0,
           [])).1 :=
    foldl_set_keys_stable hB
  apply dict_ext
  · rw [overlay_keys app preset.name preset.input_values _ [], hC, hA]
    exact foldl_set_nodup_keys hnd
  · rw [overlay_keys app preset.name preset.input_values _ [], hC]
  · intro k
    apply overlay_get_congr
    · rw [hC, hA]
    · by_cases ho : ∃ o ∈ app.parameter_options, ParamOption.id o = k
      · exact foldl_set_get_written (f := ParamOption.id)
          (g := ParamOption.defaultVal) ho _ _
      · have hno : ∀ o ∈ app.parameter_options, ParamOption.id o ≠ k :=
          fun o hoo he => ho ⟨o, hoo, he⟩
        have hknot : k ∉ keysList pv0 := by
          intro hk
          rcases hsub k hk with ⟨o, hoo, he⟩
          exact ho ⟨o, hoo, he⟩
        have hncont : dictContains
            (app.parameter_options.foldl (fun d o => dictSet d o.id o.defaultVal) pv0)
            k = false := by
          rw [show dictContains (app.parameter_options.foldl
              (fun d o => dictSet d o.id o.defaultVal) pv0) k
            = decide (k ∈ keysList (app.parameter_options.foldl
                (fun d o => dictSet d o.id o.defaultVal) pv0)) from ?_]
          · rw [decide_eq_false]
            rw [mem_keys_foldl_set_iff (f := ParamOption.id)
              (g := ParamOption.defaultVal)]
            rintro (hk | ⟨o, hoo, he⟩)
            · exact hknot hk
            · exact ho ⟨o, hoo, he⟩
          · by_cases hcc : dictContains (app.parameter_options.foldl
                (fun d o => dictSet d o.id o.defaultVal) pv0) k = true
            · rw [hcc, Eq.comm, decide_eq_true_iff]
              exact dictContains_iff.mp hcc
            · rw [Bool.not_eq_true] at hcc
              rw [hcc, Eq.comm, decide_eq_false_iff_not]
              intro hmm
              rw [← dictContains_iff] at hmm
              rw [hcc] at hmm
              cases hmm
        simp only [foldl_set_get_untouched (f := ParamOption.id)
          (g := ParamOption.defaultVal) hno]
        rw [overlay_get_not_contained app preset.name preset.input_values _ [] hncont]
        exact foldl_set_get_untouched (f := ParamOption.id)
          (g := ParamOption.defaultVal) hno pv0

/-- The checkbox phase of preset application is determined by the key
list, the lookups at keys it does not write, and nothing else. -/
theorem cb_apply_congr (app : RichApp) (preset : PresetConfig)
    (y1 y2 : List (String × Bool))
    (hkeys : keysList y1 = keysList y2) (hnd : (keysList y1).Nodup)
    (hget : ∀ k, (∀ o ∈ app.checkbox_options, o.id ≠ k) →
      (∀ i ∈ preset.checkbox_options, i ≠ k) → dictGet y1 k = dictGet y2 k) :
    preset.checkbox_options.foldl (fun d i => dictSet d i true)
      (app.checkbox_options.foldl (fun d o => dictSet d o.id false) y1)
    = preset.checkbox_options.foldl (fun d i => dictSet d i true)
        (app.checkbox_options.foldl (fun d o => dictSet d o.id false) y2) := by
  apply dict_ext
  · exact foldl_set_nodup_keys (foldl_set_nodup_keys hnd)
  · exact foldl_set_keys_congr (foldl_set_keys_congr hkeys)
  · intro k
    by_cases hp : ∃ i ∈ preset.checkbox_options, i = k
    · have hp' : ∃ i ∈ preset.checkbox_options, (fun i => i) i = k := hp
      rw [foldl_set_get_const (f := fun i => i) hp',
          foldl_set_get_const (f := fun i => i) hp']
    · have hnp : ∀ i ∈ preset.checkbox_options, (fun i : String => i) i ≠ k :=
        fun i hi he => hp ⟨i, hi, he⟩
      simp only [foldl_set_get_untouched (f := fun i => i) hnp]
      by_cases ho : ∃ o ∈ app.checkbox_options, o.id = k
      · have ho' : ∃ o ∈ app.checkbox_options, CheckboxOption.id o = k := ho
        rw [foldl_set_get_const (f := CheckboxOption.id) ho',
            foldl_set_get_const (f := CheckboxOption.id) ho']
      · have hno : ∀ o ∈ app.checkbox_options, CheckboxOption.id o ≠ k :=
          fun o hoo he => ho ⟨o, hoo, he⟩
        simp only [foldl_set_get_untouched (f := CheckboxOption.id) hno]
        exact hget k hno (fun i hi he => hp ⟨i, hi, he⟩)

/-- The value phase of preset application is determined by the key list
and the lookups at keys naming no declared option. -/
theorem pv_apply_congr (app : RichApp) (preset : PresetConfig)
    (y1 y2 : List (String × Option String))
    (hkeys : keysList y1 = keysList y2) (hnd : (keysList y1).Nodup)
    (hget : ∀ k, (∀ o ∈ app.parameter_options, o.id ≠ k) →
      dictGet y1 k = dictGet y2 k) :
    (preset.input_values.foldl (presetOverlayStep app preset.name)
      (app.parameter_options.foldl (fun d o => dictSet d o.id o.defaultVal) y1,
       [])).1
    = (preset.input_values.foldl (presetOverlayStep app preset.name)
        (app.parameter_options.foldl (fun d o => dictSet d o.id o.defaultVal) y2,
         [])).1 := by
  apply dict_ext
  · rw [overlay_keys app preset.name preset.input_values _ []]
    exact foldl_set_nodup_keys hnd
  · rw [overlay_keys app preset.name preset.input_values _ [],
        overlay_keys app preset.name preset.input_values _ []]
    exact foldl_set_keys_congr hkeys
  · intro k
    apply overlay_get_congr
    · exact foldl_set_keys_congr hkeys
    · by_cases ho : ∃ o ∈ app.parameter_options, ParamOption.id o = k
      · exact foldl_set_get_written (f := ParamOption.id)
          (g := ParamOption.defaultVal) ho _ _
      · have hno : ∀ o ∈ app.parameter_options, ParamOption.id o ≠ k :=
          fun o hoo he => ho ⟨o, hoo, he⟩
        simp only [foldl_set_get_untouched (f := ParamOption.id)
          (g := ParamOption.defaultVal) hno]
        exact hget k hno

theorem dictContains_eq_false {α : Type} {d : List (String × α)} {k : String} :
    dictContains d k = false ↔ k ∉ keysList d := by
  constructor
  · intro h hm
    have hc := dictContains_iff.mpr hm
    rw [h] at hc
    cases hc
  · intro h
    cases hc : dictContains d k
    · rfl
    · exact absurd (dictContains_iff.mp hc) h

/-- C3 amended: applying the same preset twice is idempotent on the toggle
and value maps (in any state whose value-map keys all name declared
options, as every state the program constructs); and applying preset `Q`
after preset `P` to the freshly initialized form equals applying `Q` to
the fresh form alone, provided every id in `P`'s selected-toggle set names
a declared ToggleOption — an unknown toggle id in `P` leaves a residual
toggle-map entry that survives `Q`. -/
theorem preset_apply_idempotent_and_fresh (app : RichApp) (st : FormState)
    (preset P Q : PresetConfig)
    (hcb : (keysList st.checkboxStates).Nodup)
    (hpv : (keysList st.paramValues).Nodup)
    (hsub : ∀ k ∈ keysList st.paramValues, ∃ o ∈ app.parameter_options, o.id = k)
    (hP : ∀ i ∈ P.checkbox_options, ∃ o ∈ app.checkbox_options, o.id = i) :
    ((applyPresetConfig app (applyPresetConfig app st preset).1 preset).1.checkboxStates
       = (applyPresetConfig app st preset).1.checkboxStates ∧
     (applyPresetConfig app (applyPresetConfig app st preset).1 preset).1.paramValues
       = (applyPresetConfig app st preset).1.paramValues) ∧
    ((applyPresetConfig app (applyPresetConfig app (initState app) P).1 Q).1.checkboxStates
       = (applyPresetConfig app (initState app) Q).1.checkboxStates ∧
     (applyPresetConfig app (applyPresetConfig app (initState app) P).1 Q).1.paramValues
       = (applyPresetConfig app (initState app) Q).1.paramValues) := by
  have hinitcb_nodup : (keysList (initState app).checkboxStates).Nodup :=
    foldl_set_nodup_keys (by simp [keysList])
  have hinitpv_nodup : (keysList (initState app).paramValues).Nodup :=
    foldl_set_nodup_keys (by simp [keysList])
  have hinitcb_opts : ∀ o ∈ app.checkbox_options,
      o.id ∈ keysList (initState app).checkboxStates :=
    fun o ho => foldl_set_key_mem (f := CheckboxOption.id)
      (g := CheckboxOption.default) ho []
  have hinitpv_opts : ∀ o ∈ app.parameter_options,
      o.id ∈ keysList (initState app).paramValues :=
    fun o ho => foldl_set_key_mem (f := ParamOption.id)
      (g := ParamOption.defaultVal) ho []
  have hinitpv_sub : ∀ k ∈ keysList (initState app).paramValues,
      ∃ o ∈ app.parameter_options, o.id = k := by
    intro k hk
    have := (mem_keys_foldl_set_iff (f := ParamOption.id)
      (g := ParamOption.defaultVal) (d := [])).mp hk
    rcases this with h | h
    · simp [keysList] at h
    · exact h
  refine ⟨⟨?_, ?_⟩, ?_, ?_⟩
  · exact cb_apply_idem app preset st.checkboxStates hcb
  · exact pv_apply_idem app preset st.paramValues hpv hsub
  · -- toggle map: P leaves key list and non-option lookups intact
    have hk1 : keysList (app.checkbox_options.foldl
          (fun d o => dictSet d o.id false) (initState app).checkboxStates)
        = keysList (initState app).checkboxStates :=
      foldl_set_keys_stable hinitcb_opts
    have hk2 : keysList (P.checkbox_options.foldl (fun d i => dictSet d i true)
          (app.checkbox_options.foldl (fun d o => dictSet d o.id false)
            (initState app).checkboxStates))
        = keysList (app.checkbox_options.foldl (fun d o => dictSet d o.id false)
            (initState app).checkboxStates) := by
      apply foldl_set_keys_stable
      intro i hi
      rcases hP i hi with ⟨o, ho, hoid⟩
      rw [hk1]
      exact hoid ▸ hinitcb_opts o ho
    have hX0cb : (applyPresetConfig app (initState app) P).1.checkboxStates
        = P.checkbox_options.foldl (fun d i => dictSet d i true)
            (app.checkbox_options.foldl (fun d o => dictSet d o.id false)
              (initState app).checkboxStates) := rfl
    apply cb_apply_congr
    · rw [hX0cb]
      exact hk2.trans hk1
    · rw [hX0cb, hk2, hk1]
      exact hinitcb_nodup
    · intro k hno _
      have hnp : ∀ i ∈ P.checkbox_options, (fun i : String => i) i ≠ k := by
        intro i hi he
        rcases hP i hi with ⟨o, ho, hoid⟩
        exact hno o ho (hoid.trans he)
      rw [hX0cb]
      simp only [foldl_set_get_untouched (f := fun i => i) hnp,
        foldl_set_get_untouched (f := CheckboxOption.id) hno]
  · -- value map: P leaves key list and non-option lookups intact
    have hkeyspv : keysList (applyPresetConfig app (initState app) P).1.paramValues
        = keysList (initState app).paramValues := by
      show keysList (P.input_values.foldl (presetOverlayStep app P.name)
        (app.parameter_options.foldl (fun d o => dictSet d o.id o.defaultVal)
          (initState app).paramValues, [])).1 = _
      rw [overlay_keys app P.name P.input_values _ []]
      exact foldl_set_keys_stable hinitpv_opts
    apply pv_apply_congr
    · exact hkeyspv
    · rw [hkeyspv]
      exact hinitpv_nodup
    · intro k hno
      have hknot : k ∉ keysList (initState app).paramValues := by
        intro hk
        rcases hinitpv_sub k hk with ⟨o, ho, hoid⟩
        exact hno o ho hoid
      have hncont : dictContains (app.parameter_options.foldl
          (fun d o => dictSet d o.id o.defaultVal)
          (initState app).paramValues) k = false := by
        rw [dictContains_eq_false,
          mem_keys_foldl_set_iff (f := ParamOption.id)
            (g := ParamOption.defaultVal)]
        rintro (hk | ⟨o, ho, hoid⟩)
        · exact hknot hk
        · exact hno o ho hoid
      show dictGet (P.input_values.foldl (presetOverlayStep app P.name)
        (app.parameter_options.foldl (fun d o => dictSet d o.id o.defaultVal)
          (initState app).paramValues, [])).1 k = _
      rw [overlay_get_not_contained app P.name P.input_values _ [] hncont]
      exact foldl_set_get_untouched (f := ParamOption.id)
        (g := ParamOption.defaultVal) hno (initState app).paramValues

/-- Witness for the amended C3 at a concrete form and presets. -/
theorem preset_apply_idempotent_and_fresh_witness :
    ((applyPresetConfig
        { program := "p"
          checkbox_options := [{ label := "A", id := "a", arg := "--a", default := false }]
          parameter_options :=
            [ParamOption.input
              { label := "T", id := "t", arg := "--t", default := "x", placeholder := "" }]
          extra_args := [], presets := [] }
        (applyPresetConfig
          { program := "p"
            checkbox_options := [{ label := "A", id := "a", arg := "--a", default := false }]
            parameter_options :=
              [ParamOption.input
                { label := "T", id := "t", arg := "--t", default := "x", placeholder := "" }]
            extra_args := [], presets := [] }
          (initState
            { program := "p"
              checkbox_options := [{ label := "A", id := "a", arg := "--a", default := false }]
              parameter_options :=
                [ParamOption.input
                  { label := "T", id := "t", arg := "--t", default := "x", placeholder := "" }]
              extra_args := [], presets := [] })
          { name := "R", description := "", checkbox_options := ["a"]
            input_values := [("t", "y")] }).1
        { name := "R", description := "", checkbox_options := ["a"]
          input_values := [("t", "y")] }).1.checkboxStates
      = (applyPresetConfig
          { program := "p"
            checkbox_options := [{ label := "A", id := "a", arg := "--a", default := false }]
            parameter_options :=
              [ParamOption.input
                { label := "T", id := "t", arg := "--t", default := "x", placeholder := "" }]
            extra_args := [], presets := [] }
          (initState
            { program := "p"
              checkbox_options := [{ label := "A", id := "a", arg := "--a", default := false }]
              parameter_options :=
                [ParamOption.input
                  { label := "T", id := "t", arg := "--t", default := "x", placeholder := "" }]
              extra_args := [], presets := [] })
          { name := "R", description := "", checkbox_options := ["a"]
            input_values := [("t", "y")] }).1.checkboxStates ∧
     (applyPresetConfig
        { program := "p"
          checkbox_options := [{ label := "A", id := "a", arg := "--a", default := false }]
          parameter_options :=
            [ParamOption.input
              { label := "T", id := "t", arg := "--t", default := "x", placeholder := "" }]
          extra_args := [], presets := [] }
        (applyPresetConfig
          { program := "p"
            checkbox_options := [{ label := "A", id := "a", arg := "--a", default := false }]
            parameter_options :=
              [ParamOption.input
                { label := "T", id := "t", arg := "--t", default := "x", placeholder := "" }]
            extra_args := [], presets := [] }
          (initState
            { program := "p"
              checkbox_options := [{ label := "A", id := "a", arg := "--a", default := false }]
              parameter_options :=
                [ParamOption.input
                  { label := "T", id := "t", arg := "--t", default := "x", placeholder := "" }]
              extra_args := [], presets := [] })
          { name := "R", description := "", checkbox_options := ["a"]
            input_values := [("t", "y")] }).1
        { name := "R", description := "", checkbox_options := ["a"]
          input_values := [("t", "y")] }).1.paramValues
      = (applyPresetConfig
          { program := "p"
            checkbox_options := [{ label := "A", id := "a", arg := "--a", default := false }]
            parameter_options :=
              [ParamOption.input
                { label := "T", id := "t", arg := "--t", default := "x", placeholder := "" }]
            extra_args := [], presets := [] }
          (initState
            { program := "p"
              checkbox_options := [{ label := "A", id := "a", arg := "--a", default := false }]
              parameter_options :=
                [ParamOption.input
                  { label := "T", id := "t", arg := "--t", default := "x", placeholder := "" }]
              extra_args := [], presets := [] })
          { name := "R", description := "", checkbox_options := ["a"]
            input_values := [("t", "y")] }).1.paramValues) ∧
    ((applyPresetConfig
        { program := "p"
          checkbox_options := [{ label := "A", id := "a", arg := "--a", default := false }]
          parameter_options :=
            [ParamOption.input
              { label := "T", id := "t", arg := "--t", default := "x", placeholder := "" }]
          extra_args := [], presets := [] }
        (applyPresetConfig
          { program := "p"
            checkbox_options := [{ label := "A", id := "a", arg := "--a", default := false }]
            parameter_options :=
              [ParamOption.input
                { label := "T", id := "t", arg := "--t", default := "x", placeholder := "" }]
            extra_args := [], presets := [] }
          (initState
            { program := "p"
              checkbox_options := [{ label := "A", id := "a", arg := "--a", default := false }]
              parameter_options :=
                [ParamOption.input
                  { label := "T", id := "t", arg := "--t", default := "x", placeholder := "" }]
              extra_args := [], presets := [] })
          { name := "R", description := "", checkbox_options := ["a"]
            input_values := [("t", "y")] }).1
        { name := "S", description := "", checkbox_options := []
          input_values := [] }).1.checkboxStates
      = (applyPresetConfig
          { program := "p"
            checkbox_options := [{ label := "A", id := "a", arg := "--a", default := false }]
            parameter_options :=
              [ParamOption.input
                { label := "T", id := "t", arg := "--t", default := "x", placeholder := "" }]
            extra_args := [], presets := [] }
          (initState
            { program := "p"
              checkbox_options := [{ label := "A", id := "a", arg := "--a", default := false }]
              parameter_options :=
                [ParamOption.input
                  { label := "T", id := "t", arg := "--t", default := "x", placeholder := "" }]
              extra_args := [], presets := [] })
          { name := "S", description := "", checkbox_options := []
            input_values := [] }).1.checkboxStates ∧
     (applyPresetConfig
        { program := "p"
          checkbox_options := [{ label := "A", id := "a", arg := "--a", default := false }]
          parameter_options :=
            [ParamOption.input
              { label := "T", id := "t", arg := "--t", default := "x", placeholder := "" }]
          extra_args := [], presets := [] }
        (applyPresetConfig
          { program := "p"
            checkbox_options := [{ label := "A", id := "a", arg := "--a", default := false }]
            parameter_options :=
              [ParamOption.input
                { label := "T", id := "t", arg := "--t", default := "x", placeholder := "" }]
            extra_args := [], presets := [] }
          (initState
            { program := "p"
              checkbox_options := [{ label := "A", id := "a", arg := "--a", default := false }]
              parameter_options :=
                [ParamOption.input
                  { label := "T", id := "t", arg := "--t", default := "x", placeholder := "" }]
              extra_args := [], presets := [] })
          { name := "R", description := "", checkbox_options := ["a"]
            input_values := [("t", "y")] }).1
        { name := "S", description := "", checkbox_options := []
          input_values := [] }).1.paramValues
      = (applyPresetConfig
          { program := "p"
            checkbox_options := [{ label := "A", id := "a", arg := "--a", default := false }]
            parameter_options :=
              [ParamOption.input
                { label := "T", id := "t", arg := "--t", default := "x", placeholder := "" }]
            extra_args := [], presets := [] }
          (initState
            { program := "p"
              checkbox_options := [{ label := "A", id := "a", arg := "--a", default := false }]
              parameter_options :=
                [ParamOption.input
                  { label := "T", id := "t", arg := "--t", default := "x", placeholder := "" }]
              extra_args := [], presets := [] })
          { name := "S", description := "", checkbox_options := []
            input_values := [] }).1.paramValues) := by
  have h := preset_apply_idempotent_and_fresh
    { program := "p"
      checkbox_options := [{ label := "A", id := "a", arg := "--a", default := false }]
      parameter_options :=
        [ParamOption.input
          { label := "T", id := "t", arg := "--t", default := "x", placeholder := "" }]
      extra_args := [], presets := [] }
    (initState
      { program := "p"
        checkbox_options := [{ label := "A", id := "a", arg := "--a", default := false }]
        parameter_options :=
          [ParamOption.input
            { label := "T", id := "t", arg := "--t", default := "x", placeholder := "" }]
        extra_args := [], presets := [] })
    { name := "R", description := "", checkbox_options := ["a"]
      input_values := [("t", "y")] }
    { name := "R", description := "", checkbox_options := ["a"]
      input_values := [("t", "y")] }
    { name := "S", description := "", checkbox_options := [], input_values := [] }
    (by decide) (by decide) (by decide) (by decide)
  exact h

/-- C3 counterexample: with preset `P` selecting the unknown toggle id
`"ghost"` and the empty preset `Q`, applying `Q` after `P` differs from
applying `Q` to the fresh form — the residual `("ghost", true)` entry
created by `P` survives `Q`. -/
theorem preset_residue_counterexample :
    (applyPresetConfig
        { program := "p"
          checkbox_options := [{ label := "A", id := "a", arg := "--a", default := false }]
          parameter_options := [], extra_args := [], presets := [] }
        (applyPresetConfig
          { program := "p"
            checkbox_options := [{ label := "A", id := "a", arg := "--a", default := false }]
            parameter_options := [], extra_args := [], presets := [] }
          (initState
            { program := "p"
              checkbox_options := [{ label := "A", id := "a", arg := "--a", default := false }]
              parameter_options := [], extra_args := [], presets := [] })
          { name := "P", description := "", checkbox_options := ["ghost"]
            input_values := [] }).1
        { name := "Q", description := "", checkbox_options := []
          input_values := [] }).1.checkboxStates
      ≠ (applyPresetConfig
          { program := "p"
            checkbox_options := [{ label := "A", id := "a", arg := "--a", default := false }]
            parameter_options := [], extra_args := [], presets := [] }
          (initState
            { program := "p"
              checkbox_options := [{ label := "A", id := "a", arg := "--a", default := false }]
              parameter_options := [], extra_args := [], presets := [] })
          { name := "Q", description := "", checkbox_options := []
            input_values := [] }).1.checkboxStates := by
  decide

/-! ## C8: decimal round-trip lemmas -/

theorem natToCharsAux_eq (n : Nat) (acc : List Char) :
    natToCharsAux n acc =
      if n < 10 then digitChar n :: acc
      else natToCharsAux (n / 10) (digitChar (n % 10) :: acc) := by
  rw [natToCharsAux]
  by_cases h : n < 10 <;> simp [h]

theorem natToCharsAux_append (n : Nat) :
    ∀ acc, natToCharsAux n acc = natToCharsAux n [] ++ acc := by
  induction n using Nat.strong_induction_on with
  | _ n ih =>
    intro acc
    rw [natToCharsAux_eq n acc, natToCharsAux_eq n []]
    by_cases h : n < 10
    · simp [h]
    · simp only [h, if_false]
      have hd : n / 10 < n :=
        Nat.div_lt_self (Nat.pos_of_ne_zero (by omega)) (by omega)
      rw [ih (n / 10) hd (digitChar (n % 10) :: acc),
          ih (n / 10) hd [digitChar (n % 10)]]
      simp

theorem charToDigit_digitChar {m : Nat} (h : m < 10) :
    charToDigit (digitChar m) = some m := by
  interval_cases m <;> decide

theorem digitChar_ne_minus {m : Nat} (h : m < 10) : digitChar m ≠ '-' := by
  interval_cases m <;> decide

/-- The exponent shift of the digit rendering. -/
def tenPow (n : Nat) : Nat :=
  if h : n < 10 then 10 else 10 * tenPow (n / 10)
termination_by n
decreasing_by
  exact Nat.div_lt_self (Nat.pos_of_ne_zero (by omega)) (by omega)

theorem tenPow_eq (n : Nat) :
    tenPow n = if n < 10 then 10 else 10 * tenPow (n / 10) := by
  rw [tenPow]
  by_cases h : n < 10 <;> simp [h]

theorem parse_fold_natToChars (n : Nat) :
    ∀ v : Nat,
      (natToCharsAux n []).foldl (fun acc c =>
        match acc, charToDigit c with
        | some m, some d => some (m * 10 + d)
        | _, _ => none) (some v) = some (v * tenPow n + n) := by
  induction n using Nat.strong_induction_on with
  | _ n ih =>
    intro v
    rw [natToCharsAux_eq n [], tenPow_eq n]
    by_cases h : n < 10
    · simp only [h, if_true]
      simp [charToDigit_digitChar h]
    · simp only [h, if_false]
      have hd : n / 10 < n :=
        Nat.div_lt_self (Nat.pos_of_ne_zero (by omega)) (by omega)
      rw [natToCharsAux_append, List.foldl_append, ih (n / 10) hd v]
      have hm : n % 10 < 10 := Nat.mod_lt _ (by omega)
      simp only [List.foldl_cons, List.foldl_nil, charToDigit_digitChar hm]
      congr 1
      have := Nat.div_add_mod n 10
      ring_nf
      omega

theorem natToCharsAux_ne_nil (n : Nat) : natToCharsAux n [] ≠ [] := by
  rw [natToCharsAux_eq]
  by_cases h : n < 10
  · simp [h]
  · simp only [h, if_false]
    rw [natToCharsAux_append]
    simp

theorem parseDigits_natToChars (n : Nat) :
    parseDigits (natToCharsAux n []) = some n := by
  unfold parseDigits
  rw [if_neg (by simp [natToCharsAux_ne_nil n])]
  have := parse_fold_natToChars n 0
  simpa using this

theorem natToCharsAux_head_digit (n : Nat) :
    ∃ m rest, m < 10 ∧ natToCharsAux n [] = digitChar m :: rest := by
  induction n using Nat.strong_induction_on with
  | _ n ih =>
    rw [natToCharsAux_eq]
    by_cases h : n < 10
    · exact ⟨n, [], h, by simp [h]⟩
    · simp only [h, if_false]
      rw [natToCharsAux_append]
      have hd : n / 10 < n :=
        Nat.div_lt_self (Nat.pos_of_ne_zero (by omega)) (by omega)
      rcases ih (n / 10) hd with ⟨m, rest, hm, he⟩
      exact ⟨m, rest ++ [digitChar (n % 10)], hm, by rw [he]; simp⟩

theorem strToInt_intToStr (n : Int) : strToInt (intToStr n) = some n := by
  cases n with
  | ofNat m =>
    show strToInt (natToStr m) = some (Int.ofNat m)
    unfold strToInt natToStr
    rcases natToCharsAux_head_digit m with ⟨d, rest, hd, he⟩
    rw [show (String.mk (natToCharsAux m [])).toList = natToCharsAux m [] from rfl]
    rw [he]
    have hne : digitChar d ≠ '-' := digitChar_ne_minus hd
    dsimp only
    rw [if_neg hne, ← he, parseDigits_natToChars]
    rfl
  | negSucc m =>
    show strToInt ("-" ++ natToStr (m + 1)) = some (Int.negSucc m)
    unfold strToInt natToStr
    rw [show ("-" ++ String.mk (natToCharsAux (m + 1) [])).toList
      = '-' :: natToCharsAux (m + 1) [] from rfl]
    dsimp only
    rw [if_pos rfl, parseDigits_natToChars]
    simp [Int.negSucc_eq]

theorem intToStr_ne_empty (n : Int) : intToStr n ≠ "" := by
  cases n with
  | ofNat m =>
    show natToStr m ≠ ""
    unfold natToStr
    intro h
    exact natToCharsAux_ne_nil m (by
      have := congrArg String.toList h
      simpa using this)
  | negSucc m =>
    show ("-" ++ natToStr (m + 1)) ≠ ""
    intro h
    have := congrArg String.toList h
    rw [show ("-" ++ natToStr (m + 1)).toList
      = '-' :: natToCharsAux (m + 1) [] from rfl] at this
    simp at this

/-! ## C8: list lemmas for extraction and token lookup -/

theorem map_filterMap_sublist {α β γ : Type} (g : α → Option β) (h : β → γ)
    (k : α → γ) (l : List α) (hrel : ∀ a b, g a = some b → h b = k a) :
    ((l.filterMap g).map h).Sublist (l.map k) := by
  induction l with
  | nil => simp
  | cons a t ih =>
    cases hg : g a with
    | none =>
      rw [List.filterMap_cons_none hg, List.map_cons]
      exact ih.cons (k a)
    | some b =>
      rw [List.filterMap_cons_some hg, List.map_cons, List.map_cons, hrel a b hg]
      exact ih.cons₂ (k a)

theorem headD_mem {α : Type} {l : List α} (h : l ≠ []) (d : α) : l.headD d ∈ l := by
  cases l with
  | nil => exact absurd rfl h
  | cons x t => simp

theorem heads_nodup {l : List ArgAction}
    (hflat : ((l.map ArgAction.optionStrings).flatten).Nodup)
    (hne : ∀ a ∈ l, a.optionStrings ≠ []) :
    (l.map (fun a => a.optionStrings.headD "")).Nodup := by
  induction l with
  | nil => simp
  | cons a t ih =>
    rw [List.map_cons, List.flatten_cons, List.nodup_append] at hflat
    rw [List.map_cons, List.nodup_cons]
    constructor
    · intro hmem
      rcases List.mem_map.mp hmem with ⟨b, hb, he⟩
      have h1 : a.optionStrings.headD "" ∈ a.optionStrings :=
        headD_mem (hne a (List.mem_cons_self a t)) ""
      have h2 : b.optionStrings.headD "" ∈ (t.map ArgAction.optionStrings).flatten := by
        apply List.mem_flatten.mpr
        exact ⟨b.optionStrings, List.mem_map_of_mem _ hb,
          headD_mem (hne b (List.mem_cons_of_mem a hb)) ""⟩
      rw [he] at h2
      exact hflat.2.2 h1 h2
    · exact ih hflat.2.1 (fun b hb => hne b (List.mem_cons_of_mem a hb))

theorem find?_token {actions : List ArgAction}
    (hflat : ((actions.map ArgAction.optionStrings).flatten).Nodup)
    {a : ArgAction} (ha : a ∈ actions) {tok : String}
    (htok : tok ∈ a.optionStrings) :
    actions.find? (fun b => b.optionStrings.contains tok) = some a := by
  induction actions with
  | nil => simp at ha
  | cons b t ih =>
    rw [List.map_cons, List.flatten_cons, List.nodup_append] at hflat
    rcases List.mem_cons.mp ha with rfl | hat
    · rw [List.find?_cons_of_pos]
      exact List.elem_iff.mpr htok
    · have hnb : tok ∉ b.optionStrings := by
        intro hb
        have h2 : tok ∈ (t.map ArgAction.optionStrings).flatten :=
          List.mem_flatten.mpr ⟨a.optionStrings, List.mem_map_of_mem _ hat, htok⟩
        exact hflat.2.2 hb h2
      rw [List.find?_cons_of_neg]
      · exact ih hflat.2.1 hat
      · exact fun hc => hnb (List.elem_iff.mp hc)

/-! ## C8: collected defaults, reparse blocks, extraction inversions -/

/-- The string an untouched form's collection reads for a parameter
option: the stored default, a `None` default read as `""`. -/
def collectDefault (o : ParamOption) : String :=
  match o.defaultVal with
  | some s => s
  | Option.none => ""

/-- An argument-vector block the reparse consumes without moving off the
stated defaults: empty, a store-true token whose stated default is
already `True`, or a token-value pair converting and choice-checking
back to the stated default. -/
def GoodBlock (actions : List ArgAction) (b : List String) : Prop :=
  b = [] ∨
  (∃ a ∈ actions, ∃ tok ∈ a.optionStrings,
    b = [tok] ∧ a.storeTrue = true ∧
    dictGet (defaultsConfig actions) a.dest = some (PyVal.bool true)) ∨
  (∃ a ∈ actions, ∃ tok ∈ a.optionStrings, ∃ v,
    b = [tok, v] ∧ a.storeTrue = false ∧
    convertValue a.ty v = some a.default ∧ choicesOk a a.default = true ∧
    dictGet (defaultsConfig actions) a.dest = some a.default)

/-- The argument-vector blocks an untouched session replays: one
singleton per enabled toggle, then one token-value pair (or nothing)
per parameter option. -/
def rtBlocks (actions : List ArgAction) : List (List String) :=
  (((extractOptionsRich actions).1).filter (fun o => o.default)).map (fun o => [o.arg])
    ++ ((extractOptionsRich actions).2).map
        (fun o => if collectDefault o ≠ "" then [o.arg, collectDefault o] else [])

/-- Inverting the rich checkbox extraction: a produced checkbox tuple
comes from a non-skipped store-true entry and carries the destination,
the first token and the truthiness of the stated default. -/
theorem extractCheckbox_inv {a : ArgAction} {o : CheckboxOption}
    (h : (extractActionRich a).bind extractedToCheckbox = some o) :
    a.storeTrue = true ∧ o.id = a.dest ∧ o.arg = a.optionStrings.headD "" ∧
    o.default = pyTruthy a.default := by
  by_cases hskip : a.dest = "help" ∨ a.optionStrings = []
  · simp [extractActionRich, hskip] at h
  · cases hst : a.storeTrue with
    | false =>
      cases hcs : a.choices with
      | none => simp [extractActionRich, hskip, hst, hcs, extractedToCheckbox] at h
      | some cs =>
        cases hemp : cs.isEmpty with
        | true => simp [extractActionRich, hskip, hst, hcs, hemp, extractedToCheckbox] at h
        | false => simp [extractActionRich, hskip, hst, hcs, hemp, extractedToCheckbox] at h
    | true =>
      simp only [extractActionRich, if_neg hskip, hst, if_true, Option.some_bind,
        extractedToCheckbox, Option.some.injEq] at h
      subst h
      exact ⟨rfl, rfl, rfl, rfl⟩

/-- Inverting the rich parameter extraction: a produced parameter option
comes from a non-skipped value-bearing entry and carries the destination
and the first token. -/
theorem extractParam_fields {a : ArgAction} {o : ParamOption}
    (h : (extractActionRich a).bind extractedToParam = some o) :
    a.storeTrue = false ∧ o.id = a.dest ∧ o.arg = a.optionStrings.headD "" := by
  by_cases hskip : a.dest = "help" ∨ a.optionStrings = []
  · simp [extractActionRich, hskip] at h
  · cases hst : a.storeTrue with
    | true => simp [extractActionRich, hskip, hst, extractedToParam] at h
    | false =>
      cases hcs : a.choices with
      | none =>
        simp only [extractActionRich, if_neg hskip, hst, Bool.false_eq_true, if_false,
          hcs, Option.some_bind, extractedToParam, Option.some.injEq] at h
        subst h
        exact ⟨rfl, rfl, rfl⟩
      | some cs =>
        cases hemp : cs.isEmpty with
        | true =>
          simp only [extractActionRich, if_neg hskip, hst, Bool.false_eq_true, if_false,
            hcs, hemp, if_true, Option.some_bind, extractedToParam, Option.some.injEq] at h
          subst h
          exact ⟨rfl, rfl, rfl⟩
        | false =>
          simp only [extractActionRich, if_neg hskip, hst, Bool.false_eq_true, if_false,
            hcs, hemp, Option.some_bind, extractedToParam, Option.some.injEq] at h
          subst h
          exact ⟨rfl, rfl, rfl⟩

/-- With unique destinations, the stated-defaults configuration reads
back each entry's stated default. -/
theorem defaultsConfig_get {actions : List ArgAction}
    (hnd : (actions.map ArgAction.dest).Nodup) {a : ArgAction} (ha : a ∈ actions) :
    dictGet (defaultsConfig actions) a.dest = some a.default := by
  unfold defaultsConfig
  exact foldl_set_get_nodup hnd ha []

/-- Under entry well-formedness and a stated default inside the choice
set, the collected default string of a produced parameter option — when
the collection-and-replay loop emits it at all — converts back to the
entry's stated default, which passes the choice check. -/
theorem extractParam_default {a : ArgAction} {o : ParamOption}
    (hwf : WellFormedAction a)
    (hcd : (match a.choices with
            | some cs => cs.contains a.default
            | Option.none => true) = true)
    (h : (extractActionRich a).bind extractedToParam = some o)
    (hne0 : collectDefault o ≠ "") :
    convertValue a.ty (collectDefault o) = some a.default ∧
      choicesOk a a.default = true := by
  obtain ⟨hhelp, hnes, hbool, hfits, hwt⟩ := hwf
  by_cases hskip : a.dest = "help" ∨ a.optionStrings = []
  · simp [extractActionRich, hskip] at h
  · cases hst : a.storeTrue with
    | true => simp [extractActionRich, hskip, hst, extractedToParam] at h
    | false =>
      have hfit : fitsTy a.ty a.default = true := hfits hst
      cases hcs : a.choices with
      | none =>
        simp only [extractActionRich, if_neg hskip, hst, Bool.false_eq_true, if_false,
          hcs, Option.some_bind, extractedToParam, Option.some.injEq] at h
        subst h
        by_cases hdn : a.default = PyVal.none
        · exact absurd (by simp [collectDefault, ParamOption.defaultVal, hdn]) hne0
        · simp only [collectDefault, ParamOption.defaultVal, if_neg hdn]
          cases hd : a.default with
          | none => exact absurd hd hdn
          | bool b =>
            rw [hd] at hfit
            cases hty : a.ty <;> simp [fitsTy, hty] at hfit
          | int n =>
            rw [hd] at hfit
            cases hty : a.ty with
            | str => simp [fitsTy, hty] at hfit
            | int =>
              refine ⟨?_, by simp [choicesOk, hcs]⟩
              show (strToInt (intToStr n)).map PyVal.int = some (PyVal.int n)
              rw [strToInt_intToStr]
              rfl
          | str s =>
            rw [hd] at hfit
            cases hty : a.ty with
            | int => simp [fitsTy, hty] at hfit
            | str => exact ⟨rfl, by simp [choicesOk, hcs]⟩
      | some cs =>
        simp only [choicesWellTyped, hcs] at hwt
        rw [Bool.and_eq_true, Bool.not_eq_true'] at hwt
        obtain ⟨hempf, hall⟩ := hwt
        simp only [hcs] at hcd
        have hmem : a.default ∈ cs := List.elem_iff.mp hcd
        have hstrict : fitsTyStrict a.ty a.default = true :=
          List.all_eq_true.mp hall a.default hmem
        have hdn : a.default ≠ PyVal.none := by
          intro hd
          rw [hd] at hstrict
          cases hty : a.ty <;> simp [fitsTyStrict, hty] at hstrict
        simp only [extractActionRich, if_neg hskip, hst, Bool.false_eq_true, if_false,
          hcs, hempf, if_neg hdn, Option.some_bind, extractedToParam,
          Option.some.injEq] at h
        subst h
        have hpmem : pyStr a.default ∈ cs.map pyStr := List.mem_map_of_mem pyStr hmem
        have hccd : collectDefault (ParamOption.select (SelectOption.make (pyOr a.help "")
            a.dest (a.optionStrings.headD "") (cs.map pyStr) (some (pyStr a.default))))
            = pyStr a.default := by
          simp [collectDefault, ParamOption.defaultVal, SelectOption.make, hpmem]
        rw [hccd]
        cases hd : a.default with
        | none => exact absurd hd hdn
        | bool b =>
          rw [hd] at hstrict
          cases hty : a.ty <;> simp [fitsTyStrict, hty] at hstrict
        | int n =>
          rw [hd] at hstrict hcd
          cases hty : a.ty with
          | str => simp [fitsTyStrict, hty] at hstrict
          | int =>
            refine ⟨?_, by simp only [choicesOk, hcs]; exact hcd⟩
            show (strToInt (intToStr n)).map PyVal.int = some (PyVal.int n)
            rw [strToInt_intToStr]
            rfl
        | str s =>
          rw [hd] at hstrict hcd
          cases hty : a.ty with
          | int => simp [fitsTyStrict, hty] at hstrict
          | str => exact ⟨rfl, by simp only [choicesOk, hcs]; exact hcd⟩

/-- Scanning a concatenation of good blocks from the stated defaults
returns them unchanged. -/
theorem parseArgsLoop_blocks {actions : List ArgAction}
    (hflat : ((actions.map ArgAction.optionStrings).flatten).Nodup) :
    ∀ blocks : List (List String), (∀ b ∈ blocks, GoodBlock actions b) →
    parseArgsLoop actions blocks.flatten (defaultsConfig actions) =
      some (defaultsConfig actions) := by
  intro blocks
  induction blocks with
  | nil => intro _; rfl
  | cons b bs ih =>
    intro h
    have hbs : ∀ c ∈ bs, GoodBlock actions c :=
      fun c hc => h c (List.mem_cons_of_mem b hc)
    have hgb := h b (List.mem_cons_self b bs)
    unfold GoodBlock at hgb
    rcases hgb with hb | ⟨a, ha, tok, htok, hbeq, hst, hget⟩ |
      ⟨a, ha, tok, htok, v, hbeq, hst, hconv, hok, hget⟩
    · subst hb
      rw [List.flatten_cons, List.nil_append]
      exact ih hbs
    · subst hbeq
      rw [List.flatten_cons, List.cons_append, List.nil_append]
      have hfind : actions.find? (fun x => x.optionStrings.contains tok) = some a :=
        find?_token hflat ha htok
      simp only [parseArgsLoop, hfind, hst, if_true]
      rw [dictSet_eq_self hget]
      exact ih hbs
    · subst hbeq
      rw [List.flatten_cons, List.cons_append, List.cons_append, List.nil_append]
      have hfind : actions.find? (fun x => x.optionStrings.contains tok) = some a :=
        find?_token hflat ha htok
      simp only [parseArgsLoop, hfind, hst, Bool.false_eq_true, if_false, hconv, hok,
        if_true]
      rw [dictSet_eq_self hget]
      exact ih hbs

/-- The toggle half of replay on a collected pair list. -/
theorem toggles_map_filter (l : List CheckboxOption) :
    ((l.map (fun o => (o.arg, o.default))).filter (fun p => p.2)).map (fun p => p.1)
      = (l.filter (fun o => o.default)).map (fun o => o.arg) := by
  induction l with
  | nil => rfl
  | cons o t ih =>
    cases hd : o.default with
    | true => simp [List.filter_cons, hd, ih]
    | false => simp [List.filter_cons, hd, ih]

/-- The value half of replay on a collected pair list. -/
theorem values_map_flatMap (l : List ParamOption) :
    (l.map (fun o => (o.arg, collectDefault o))).flatMap
        (fun p => if p.2 ≠ "" then [p.1, p.2] else [])
      = l.flatMap (fun o =>
          if collectDefault o ≠ "" then [o.arg, collectDefault o] else []) := by
  induction l with
  | nil => rfl
  | cons o t ih => simp only [List.map_cons, List.flatMap_cons, ih]

/-- Flattening a list of singleton blocks. -/
theorem flatten_map_singleton {α β : Type} (f : α → β) (l : List α) :
    (l.map (fun x => [f x])).flatten = l.map f := by
  induction l with
  | nil => rfl
  | cons x t ih => simp [ih]

/-- Flattening a mapped block list is a flatMap. -/
theorem flatten_map_eq_flatMap {α β : Type} (f : α → List β) (l : List α) :
    (l.map f).flatten = l.flatMap f := by
  induction l with
  | nil => rfl
  | cons x t ih => simp [ih]

/-- The replay blocks flatten to the toggle args followed by the
token-value pairs. -/
theorem rtBlocks_flatten (actions : List ArgAction) :
    (rtBlocks actions).flatten
      = (((extractOptionsRich actions).1).filter (fun o => o.default)).map
          (fun o => o.arg)
        ++ ((extractOptionsRich actions).2).flatMap
            (fun o => if collectDefault o ≠ "" then [o.arg, collectDefault o] else []) := by
  unfold rtBlocks
  rw [List.flatten_append, flatten_map_singleton, flatten_map_eq_flatMap]

/-- The toggle collection fold over fresh keys with duplicate-free args
lists the current booleans in declaration order. -/
theorem collect_fold_options (l : List CheckboxOption) (cb : List (String × Bool))
    (harg : (l.map (fun o => o.arg)).Nodup)
    (hget : ∀ o ∈ l, dictGetD cb o.id false = o.default) :
    l.foldl (fun d o => dictSet d o.arg (dictGetD cb o.id false)) []
      = l.map (fun o => (o.arg, o.default)) := by
  have hfresh : ∀ o ∈ l, o.arg ∉ keysList ([] : List (String × Bool)) := by
    intro o _ hm
    simp [keysList] at hm
  rw [foldl_set_fresh hfresh harg, List.nil_append]
  exact List.map_congr_left (fun o ho => by rw [hget o ho])

/-- The value collection fold over fresh keys with duplicate-free args
lists the stored strings in declaration order. -/
theorem collect_fold_inputs (l : List ParamOption) (st : FormState)
    (harg : (l.map (fun o => o.arg)).Nodup)
    (hget : ∀ o ∈ l, storedString st o.id = collectDefault o) :
    l.foldl (fun d o => dictSet d o.arg (storedString st o.id)) []
      = l.map (fun o => (o.arg, collectDefault o)) := by
  have hfresh : ∀ o ∈ l, o.arg ∉ keysList ([] : List (String × String)) := by
    intro o _ hm
    simp [keysList] at hm
  rw [foldl_set_fresh hfresh harg, List.nil_append]
  exact List.map_congr_left (fun o ho => by rw [hget o ho])

/-- The extracted checkbox ids are drawn from the (duplicate-free)
destinations. -/
theorem copts_ids_nodup {actions : List ArgAction}
    (hdest : (actions.map ArgAction.dest).Nodup) :
    ((actions.filterMap (fun a => (extractActionRich a).bind extractedToCheckbox)).map
        (fun o => o.id)).Nodup :=
  (map_filterMap_sublist (fun a => (extractActionRich a).bind extractedToCheckbox)
    (fun o => o.id) ArgAction.dest actions
    (fun _ _ h => (extractCheckbox_inv h).2.1)).nodup hdest

/-- The extracted checkbox args are drawn from the (duplicate-free) first
tokens. -/
theorem copts_args_nodup {actions : List ArgAction}
    (hflat : ((actions.map ArgAction.optionStrings).flatten).Nodup)
    (hne : ∀ a ∈ actions, a.optionStrings ≠ []) :
    ((actions.filterMap (fun a => (extractActionRich a).bind extractedToCheckbox)).map
        (fun o => o.arg)).Nodup :=
  (map_filterMap_sublist (fun a => (extractActionRich a).bind extractedToCheckbox)
    (fun o => o.arg) (fun a => a.optionStrings.headD "") actions
    (fun _ _ h => (extractCheckbox_inv h).2.2.1)).nodup (heads_nodup hflat hne)

/-- The extracted parameter ids are drawn from the (duplicate-free)
destinations. -/
theorem popts_ids_nodup {actions : List ArgAction}
    (hdest : (actions.map ArgAction.dest).Nodup) :
    ((actions.filterMap (fun a => (extractActionRich a).bind extractedToParam)).map
        (fun o => o.id)).Nodup :=
  (map_filterMap_sublist (fun a => (extractActionRich a).bind extractedToParam)
    (fun o => o.id) ArgAction.dest actions
    (fun _ _ h => (extractParam_fields h).2.1)).nodup hdest

/-- The extracted parameter args are drawn from the (duplicate-free)
first tokens. -/
theorem popts_args_nodup {actions : List ArgAction}
    (hflat : ((actions.map ArgAction.optionStrings).flatten).Nodup)
    (hne : ∀ a ∈ actions, a.optionStrings ≠ []) :
    ((actions.filterMap (fun a => (extractActionRich a).bind extractedToParam)).map
        (fun o => o.arg)).Nodup :=
  (map_filterMap_sublist (fun a => (extractActionRich a).bind extractedToParam)
    (fun o => o.arg) (fun a => a.optionStrings.headD "") actions
    (fun _ _ h => (extractParam_fields h).2.2)).nodup (heads_nodup hflat hne)

/-- Collecting the untouched session lists each toggle's stated default
and each parameter's collected default, keyed by arg, in declaration
order. -/
theorem collect_untouched (actions : List ArgAction)
    (hdest : (actions.map ArgAction.dest).Nodup)
    (hflat : ((actions.map ArgAction.optionStrings).flatten).Nodup)
    (hne : ∀ a ∈ actions, a.optionStrings ≠ []) :
    collectParameters (rtApp actions) (initState (rtApp actions))
      = { options := ((extractOptionsRich actions).1).map (fun o => (o.arg, o.default))
          inputs := ((extractOptionsRich actions).2).map (fun o => (o.arg, collectDefault o))
          preset := none } := by
  have hc1 : (extractOptionsRich actions).1
      = actions.filterMap (fun a => (extractActionRich a).bind extractedToCheckbox) := rfl
  have hc2 : (extractOptionsRich actions).2
      = actions.filterMap (fun a => (extractActionRich a).bind extractedToParam) := rfl
  have hcid : (((extractOptionsRich actions).1).map (fun o => o.id)).Nodup := by
    rw [hc1]; exact copts_ids_nodup hdest
  have hcarg : (((extractOptionsRich actions).1).map (fun o => o.arg)).Nodup := by
    rw [hc1]; exact copts_args_nodup hflat hne
  have hpid : (((extractOptionsRich actions).2).map (fun o => o.id)).Nodup := by
    rw [hc2]; exact popts_ids_nodup hdest
  have hparg : (((extractOptionsRich actions).2).map (fun o => o.arg)).Nodup := by
    rw [hc2]; exact popts_args_nodup hflat hne
  have hgetcb : ∀ o ∈ (extractOptionsRich actions).1,
      dictGetD (initState (rtApp actions)).checkboxStates o.id false = o.default := by
    intro o ho
    show dictGetD (((extractOptionsRich actions).1).foldl
      (fun d o => dictSet d o.id o.default) []) o.id false = o.default
    unfold dictGetD
    rw [foldl_set_get_nodup hcid ho]
    rfl
  have hgetp : ∀ o ∈ (extractOptionsRich actions).2,
      storedString (initState (rtApp actions)) o.id = collectDefault o := by
    intro o ho
    have h1 : dictGet (initState (rtApp actions)).paramValues o.id = some o.defaultVal := by
      show dictGet (((extractOptionsRich actions).2).foldl
        (fun d o => dictSet d o.id o.defaultVal) []) o.id = some o.defaultVal
      exact foldl_set_get_nodup hpid ho []
    unfold storedString
    rw [h1]
    cases hdv : o.defaultVal with
    | none => simp [collectDefault, hdv]
    | some s => simp [collectDefault, hdv]
  show ({ options := ((extractOptionsRich actions).1).foldl
              (fun d o => dictSet d o.arg
                (dictGetD (initState (rtApp actions)).checkboxStates o.id false)) []
          inputs := ((extractOptionsRich actions).2).foldl
              (fun d o => dictSet d o.arg
                (storedString (initState (rtApp actions)) o.id)) []
          preset := none } : ResultParams) = _
  rw [collect_fold_options _ _ hcarg hgetcb, collect_fold_inputs _ _ hparg hgetp]

/-- Replaying the untouched collection yields the enabled toggle args
followed by the non-empty token-value pairs, in declaration order. -/
theorem replay_collected (l1 : List CheckboxOption) (l2 : List ParamOption) :
    replayArgs { options := l1.map (fun o => (o.arg, o.default))
                 inputs := l2.map (fun o => (o.arg, collectDefault o))
                 preset := none } []
      = (l1.filter (fun o => o.default)).map (fun o => o.arg)
        ++ l2.flatMap (fun o =>
            if collectDefault o ≠ "" then [o.arg, collectDefault o] else []) := by
  unfold replayArgs
  rw [foldl_filter_append, foldl_pairs_append]
  simp only [List.nil_append, List.append_nil]
  rw [toggles_map_filter, values_map_flatMap]

/-- Every block an untouched well-formed session replays is consumed by
the reparse without moving off the stated defaults. -/
theorem rtBlocks_good (actions : List ArgAction)
    (hdest : (actions.map ArgAction.dest).Nodup)
    (hwfa : ∀ a ∈ actions, WellFormedAction a)
    (hcd : ChoicesHaveDefaults actions) :
    ∀ b ∈ rtBlocks actions, GoodBlock actions b := by
  intro b hb
  unfold rtBlocks at hb
  rcases List.mem_append.mp hb with hb | hb
  · rcases List.mem_map.mp hb with ⟨o, ho, hbeq⟩
    obtain ⟨ho, hdef⟩ := List.mem_filter.mp ho
    rcases List.mem_filterMap.mp ho with ⟨a, ha, hex⟩
    obtain ⟨hst, hid, harg, hdflt⟩ := extractCheckbox_inv hex
    obtain ⟨hh, hnea, hbool, hfits, hwt⟩ := hwfa a ha
    have hbl : a.default.isBool = true := hbool hst
    have htr : pyTruthy a.default = true := by
      rw [← hdflt]
      exact hdef
    have hdb : a.default = PyVal.bool true := by
      cases hdv : a.default with
      | bool c =>
        cases c with
        | true => rfl
        | false =>
          rw [hdv] at htr
          simp [pyTruthy] at htr
      | none =>
        rw [hdv] at hbl
        simp [PyVal.isBool] at hbl
      | int n =>
        rw [hdv] at hbl
        simp [PyVal.isBool] at hbl
      | str s =>
        rw [hdv] at hbl
        simp [PyVal.isBool] at hbl
    unfold GoodBlock
    refine Or.inr (Or.inl ⟨a, ha, o.arg, ?_, hbeq.symm, hst, ?_⟩)
    · rw [harg]
      exact headD_mem hnea ""
    · rw [defaultsConfig_get hdest ha, hdb]
  · rcases List.mem_map.mp hb with ⟨o, ho, hbeq⟩
    rcases List.mem_filterMap.mp ho with ⟨a, ha, hex⟩
    obtain ⟨hst, hid, harg⟩ := extractParam_fields hex
    by_cases hne0 : collectDefault o = ""
    · unfold GoodBlock
      left
      rw [← hbeq, if_neg (not_not_intro hne0)]
    · have hwa := hwfa a ha
      have hcda := hcd a ha hst
      obtain ⟨hconv, hok⟩ := extractParam_default hwa hcda hex hne0
      obtain ⟨hh, hnea, hrest⟩ := hwa
      unfold GoodBlock
      refine Or.inr (Or.inr ⟨a, ha, o.arg, ?_, collectDefault o, ?_, hst, hconv, hok,
        defaultsConfig_get hdest ha⟩)
      · rw [harg]
        exact headD_mem hnea ""
      · rw [← hbeq, if_pos hne0]

/-- C8 amended: for every well-formed declarative parameter specification
whose choices-bearing entries each state a default belonging to their
choice set, the round trip — extract the option model, initialize the
form state with the extracted defaults, collect a result untouched,
replay it as an argument vector and reparse it through the original
specification — yields exactly the specification's stated defaults.
Without the extra default-in-choices condition the property fails:
`SelectOption.__init__` coerces an absent or invalid default to the
first choice, which replay then emits (see the counterexample). -/
theorem round_trip_defaults (actions : List ArgAction)
    (hw : WellFormedSpec actions) (hcd : ChoicesHaveDefaults actions) :
    roundTrip actions = some (defaultsConfig actions) := by
  obtain ⟨hdest, hflat, hwfa⟩ := hw
  have hne : ∀ a ∈ actions, a.optionStrings ≠ [] := by
    intro a ha
    obtain ⟨_, h2, _⟩ := hwfa a ha
    exact h2
  have hcol := collect_untouched actions hdest hflat hne
  show parseArgs actions (replayArgs (collectParameters (rtApp actions)
    (initState (rtApp actions))) []) = some (defaultsConfig actions)
  rw [hcol, replay_collected, ← rtBlocks_flatten]
  show parseArgsLoop actions (rtBlocks actions).flatten (defaultsConfig actions)
    = some (defaultsConfig actions)
  exact parseArgsLoop_blocks hflat (rtBlocks actions) (rtBlocks_good actions hdest hwfa hcd)

/-- A well-formed one-entry specification with a choice set and no stated
default. -/
def c8CexActions : List ArgAction :=
  [{ dest := "mode", optionStrings := ["--mode"], storeTrue := false,
     default := PyVal.none, help := Option.none,
     choices := some [PyVal.str "fast", PyVal.str "slow"], ty := ArgTy.str }]

/-- C8 counterexample: the round trip of a well-formed specification does
not always return the stated defaults — an entry with choices and no
stated default is coerced by `SelectOption.__init__` to its first choice,
which replay emits and reparse stores, so the round trip ends at
`mode = "fast"` while the stated default is `None`. -/
theorem round_trip_first_choice :
    WellFormedSpec c8CexActions ∧
    roundTrip c8CexActions ≠ some (defaultsConfig c8CexActions) := by
  constructor
  · decide
  · decide

/-- A five-entry demonstration specification: two store-true flags (one
defaulting on), an integer, a defaultless text entry and a choice entry
whose stated default belongs to its choices. -/
def c8DemoActions : List ArgAction :=
  [{ dest := "feature1", optionStrings := ["--feature1"], storeTrue := true,
     default := PyVal.bool false, help := some "First feature",
     choices := Option.none, ty := ArgTy.str },
   { dest := "verbose", optionStrings := ["-v", "--verbose"], storeTrue := true,
     default := PyVal.bool true, help := Option.none,
     choices := Option.none, ty := ArgTy.str },
   { dest := "number", optionStrings := ["--number"], storeTrue := false,
     default := PyVal.int 100, help := some "A number",
     choices := Option.none, ty := ArgTy.int },
   { dest := "text", optionStrings := ["--text"], storeTrue := false,
     default := PyVal.none, help := Option.none,
     choices := Option.none, ty := ArgTy.str },
   { dest := "choice", optionStrings := ["--choice"], storeTrue := false,
     default := PyVal.str "A", help := some "A choice",
     choices := some [PyVal.str "A", PyVal.str "B"], ty := ArgTy.str }]

/-- Witness for the amended C8 at the five-entry demonstration
specification. -/
theorem round_trip_defaults_witness :
    WellFormedSpec c8DemoActions ∧ ChoicesHaveDefaults c8DemoActions ∧
    roundTrip c8DemoActions = some (defaultsConfig c8DemoActions) :=
  ⟨by decide, by decide, round_trip_defaults c8DemoActions (by decide) (by decide)⟩
